import Mathlib

/-!
# Verification of the meta2 data-importer pipeline

This file gives a shallow embedding, in Lean 4, of the parts of the
`data-importer` service that the specification talks about: the pure field
normalizers (`utils/validation.py`), the sheet-row processing pipeline
(`services/data_processor.py`) and the database import / linking engine
(`services/import_service.py`), together with theorems settling the
specified properties.

Python strings are modelled as `List Char`.  Python's string primitives
(`strip`, `lstrip`/`rstrip` with a character set, `lower`, `split`,
`replace`, `in`, `startswith`) are modelled by executable Lean functions
below.  The model is faithful on the character repertoire the pipeline
actually handles (ASCII plus the Russian alphabet used by the sheet
headers and month names); full Unicode case folding and exotic numeric
literals accepted by Python's `float`/`int` (`inf`, `nan`, digit
underscores, non-ASCII digits) are outside the modelled fragment.
-/

namespace Meta2

/-- Python strings are lists of characters. -/
abbrev Str := List Char

/-- Characters of a Lean string literal, used to write Python string
literals compactly. -/
def chars (s : String) : Str := s.data

/-- The whitespace characters recognised by Python's `str.strip()`
(ASCII fragment). -/
def pyIsSpace (c : Char) : Bool :=
  c = ' ' ∨ c = '\t' ∨ c = '\n' ∨ c = '\x0d' ∨ c = '\x0b' ∨ c = '\x0c'

/-- Python `s.lstrip()`. -/
def pyLStrip (s : Str) : Str := s.dropWhile pyIsSpace

/-- Python `s.rstrip()`. -/
def pyRStrip (s : Str) : Str := (s.reverse.dropWhile pyIsSpace).reverse

/-- Python `s.strip()`. -/
def pyStrip (s : Str) : Str := pyRStrip (pyLStrip s)

/-- Python `s.lstrip(set)`: remove leading characters belonging to `set`. -/
def pyLStripChars (set : Str) (s : Str) : Str :=
  s.dropWhile (fun c => set.contains c)

/-- Python `s.rstrip(set)`: remove trailing characters belonging to `set`. -/
def pyRStripChars (set : Str) (s : Str) : Str :=
  (s.reverse.dropWhile (fun c => set.contains c)).reverse

/-- Python `str.lower()` restricted to the alphabets the importer
handles: ASCII letters and the Russian alphabet (А..Я and Ё). -/
def pyLowerChar (c : Char) : Char :=
  if 'A' ≤ c ∧ c ≤ 'Z' then Char.ofNat (c.toNat + 32)
  else if 'А' ≤ c ∧ c ≤ 'Я' then Char.ofNat (c.toNat + 32)
  else if c = 'Ё' then 'ё'
  else c

/-- Python `s.lower()` (modelled fragment). -/
def pyLower (s : Str) : Str := s.map pyLowerChar

/-- One step of Python `s.split(pat)` for a non-empty separator `pat`:
scan left to right, cutting at each (non-overlapping) occurrence of
`pat`.  `cur` holds the reversed characters of the piece being built.
Recursion is on a fuel argument so that the function reduces inside the
kernel; the wrapper `pySplit` supplies `s.length` as fuel, which is
enough because every step consumes at least one character.  (Python
raises on an empty separator; every call site passes a non-empty
literal, and the `pat ≠ []` guard keeps the model total.) -/
def pySplitGo (fuel : Nat) (pat : Str) (s : Str) (cur : Str) : List Str :=
  match fuel, s with
  | _, [] => [cur.reverse]
  | 0, s => [cur.reverse ++ s]
  | fuel + 1, c :: rest =>
    if pat ≠ [] ∧ pat.isPrefixOf (c :: rest) then
      cur.reverse :: pySplitGo fuel pat (List.drop (pat.length - 1) rest) []
    else
      pySplitGo fuel pat rest (c :: cur)

/-- Python `s.split(pat)` for a non-empty separator. -/
def pySplit (pat s : Str) : List Str := pySplitGo s.length pat s []

/-- Python `s.split()` (no separator): split on whitespace runs,
discarding empty pieces. -/
def pySplitWs (s : Str) : List Str :=
  (s.splitOnP pyIsSpace).filter (fun p => p ≠ [])

/-- Python `s.replace(pat, rep)` for a non-empty `pat`: replace every
(non-overlapping, left-to-right) occurrence.  Fuel-based for the same
reason as `pySplitGo`. -/
def pyReplaceGo (fuel : Nat) (pat rep : Str) (s : Str) : Str :=
  match fuel, s with
  | _, [] => []
  | 0, s => s
  | fuel + 1, c :: rest =>
    if pat ≠ [] ∧ pat.isPrefixOf (c :: rest) then
      rep ++ pyReplaceGo fuel pat rep (List.drop (pat.length - 1) rest)
    else
      c :: pyReplaceGo fuel pat rep rest

/-- Python `s.replace(pat, rep)` for a non-empty `pat`. -/
def pyReplace (pat rep : Str) (s : Str) : Str := pyReplaceGo s.length pat rep s

/-- Value of a digit run (used for Python's `int`/`float`). -/
def digitsToNat (ds : Str) : Nat :=
  ds.foldl (fun acc c => acc * 10 + (c.toNat - 48)) 0

/-- Python `int(s)` on the modelled fragment: optional surrounding
whitespace, optional sign, a non-empty ASCII digit run. -/
def pyInt (s0 : Str) : Option Int :=
  match pyStrip s0 with
  | '+' :: t => if t ≠ [] ∧ t.all Char.isDigit then some (digitsToNat t) else none
  | '-' :: t => if t ≠ [] ∧ t.all Char.isDigit then some (-(digitsToNat t : Int)) else none
  | t => if t ≠ [] ∧ t.all Char.isDigit then some (digitsToNat t) else none

/-- Python `float(s)` on the modelled fragment: optional surrounding
whitespace, optional sign, decimal digits with an optional decimal
point and an optional exponent.  The result is the exact rational
value of the literal (IEEE rounding is not modelled; the pipeline
only compares costs against 0). -/
def pyFloat (s0 : Str) : Option ℚ :=
  let s := pyStrip s0
  let signed : ℚ × Str :=
    match s with
    | '+' :: t => (1, t)
    | '-' :: t => (-1, t)
    | t => (1, t)
  let sign := signed.1
  let s1 := signed.2
  let intPart := s1.takeWhile Char.isDigit
  let r1 := s1.drop intPart.length
  let fracSplit : Str × Str :=
    match r1 with
    | '.' :: t => (t.takeWhile Char.isDigit, t.drop (t.takeWhile Char.isDigit).length)
    | t => ([], t)
  let fracPart := fracSplit.1
  let r2 := fracSplit.2
  if intPart = [] ∧ fracPart = [] then none
  else
    let mantissa : ℚ := sign * (digitsToNat (intPart ++ fracPart) : ℚ) / (10 : ℚ) ^ fracPart.length
    match r2 with
    | [] => some mantissa
    | e :: t =>
      if e = 'e' ∨ e = 'E' then
        let esigned : Int × Str :=
          match t with
          | '+' :: u => (1, u)
          | '-' :: u => (-1, u)
          | u => (1, u)
        let edigits := esigned.2
        if edigits ≠ [] ∧ edigits.all Char.isDigit then
          some (mantissa * (10 : ℚ) ^ (esigned.1 * (digitsToNat edigits : Int)))
        else none
      else none

/-! ## Field normalizers (`utils/validation.py`) -/

/-- One character of the class `[a-zA-Z0-9_]`. -/
def isHandleChar (c : Char) : Bool := c.isAlpha || c.isDigit || c = '_'

/-- Python `re.match(r"^[a-zA-Z0-9_]+$", s)` viewed as a boolean. -/
def reMatchHandle (s : Str) : Bool := s ≠ [] && s.all isHandleChar

/-- `normalize_telegram_username` from `utils/validation.py`. -/
def normalize_telegram_username (username : Str) : Option Str :=
  if username = [] then none
  else
    let normalized := pyLower (pyLStripChars (chars "@") (pyStrip username))
    if reMatchHandle normalized then some normalized else none

/-- The body of the "double prefix" repair block of `normalize_github_url`
(lines 52–65 of `utils/validation.py`).  The outer value is `none` when the
block executes no `return` statement and control falls through to the
`startswith` chain; `some r` means the block returned `r`. -/
def githubDoublePrefixBlock (url : Str) : Option (Option Str) :=
  if chars "https://github.com/https://" <:+: url then
    match pySplit (chars "https://github.com/https://") url with
    | _ :: p1 :: _ =>
      if chars "gist.github.com" <:+: p1 then
        match pySplit (chars "gist.github.com/") p1 with
        | _ :: g1 :: _ =>
          let username := (pySplit (chars "/") g1).headD []
          some (if username ≠ [] then some (chars "https://github.com/" ++ username) else none)
        | _ => none
      else if (chars "github.com/").isPrefixOf p1 then
        some (some (chars "https://" ++ p1))
      else none
    | _ => none
  else none

/-- The branch chain of `normalize_github_url` after the falsy-input
guard and `url = url.strip()` (lines 51–88 of `utils/validation.py`). -/
def normalizeGithubUrlStripped (url : Str) : Option Str :=
  match githubDoublePrefixBlock url with
    | some r => r
    | none =>
      if (chars "https://github.com/").isPrefixOf url then some url
      else if (chars "http://github.com/").isPrefixOf url then
        some (pyReplace (chars "http://") (chars "https://") url)
      else if (chars "github.com/").isPrefixOf url then some (chars "https://" ++ url)
      else if (chars "https://gist.github.com/").isPrefixOf url then
        match pySplit (chars "gist.github.com/") url with
        | _ :: g1 :: _ =>
          let username := (pySplit (chars "/") g1).headD []
          if username ≠ [] then some (chars "https://github.com/" ++ username) else none
        | _ => none
      else if (chars "/" <:+: url) ∧ ¬ (chars "http").isPrefixOf url then
        some (chars "https://github.com/" ++ url)
      else
        some (chars "https://github.com/" ++ url)

/-- `normalize_github_url` from `utils/validation.py`. -/
def normalize_github_url (url0 : Str) : Option Str :=
  if url0 = [] then none
  else normalizeGithubUrlStripped (pyStrip url0)

/-- The double-prefix repair step of `normalize_github_url_canonical`
(lines 110–113): keep the part after the double prefix when present. -/
def canonicalFixDouble (url1 : Str) : Str :=
  if chars "https://github.com/https://" <:+: url1 then
    match pySplit (chars "https://github.com/https://") url1 with
    | _ :: p1 :: _ => p1
    | _ => url1
  else url1

/-- The protocol-strip step of `normalize_github_url_canonical`
(lines 121–124). -/
def canonicalStripProtocol (p : Str) : Str :=
  if (chars "https://").isPrefixOf p then p.drop 8
  else if (chars "http://").isPrefixOf p then p.drop 7
  else p

/-- The `www.`-strip step of `normalize_github_url_canonical`
(lines 127–128). -/
def canonicalStripWww (p : Str) : Str :=
  if (chars "www.").isPrefixOf p then p.drop 4 else p

/-- The path-extraction step of `normalize_github_url_canonical`
(lines 116–131): the text after the last `github.com/`, shorn of a
protocol and `www.`; a URL without `github.com` is taken to be an
`owner/repo` path already. -/
def canonicalExtractPath (url2 : Str) : Str :=
  if chars "github.com" <:+: url2 then
    canonicalStripWww (canonicalStripProtocol
      ((pySplit (chars "github.com/") url2).getLastD []))
  else url2

/-- The fragment cut of `normalize_github_url_canonical` (lines 141–142). -/
def canonicalCutFragment (p : Str) : Str :=
  if chars "#" <:+: p then (pySplit (chars "#") p).headD [] else p

/-- The query cut of `normalize_github_url_canonical` (lines 145–146). -/
def canonicalCutQuery (p : Str) : Str :=
  if chars "?" <:+: p then (pySplit (chars "?") p).headD [] else p

/-- The final `owner/repo` validation of `normalize_github_url_canonical`
(lines 149–157). -/
def canonicalValidatePath (p : Str) : Option Str :=
  if p = [] ∨ ¬ (chars "/" <:+: p) then none
  else
    match pySplit (chars "/") p with
    | p0 :: p1 :: _ =>
      if p0 = [] ∨ p1 = [] then none
      else some (chars "https://github.com/" ++ p0 ++ chars "/" ++ p1)
    | _ => none

/-- The clean-up and validation steps of `normalize_github_url_canonical`
(lines 133–157): `rstrip(".git")`, `rstrip("/")`, cut at `#` and `?`,
then require a non-empty `owner/repo` shape. -/
def canonicalCleanPath (path0 : Str) : Option Str :=
  canonicalValidatePath (canonicalCutQuery (canonicalCutFragment
    (pyRStripChars (chars "/") (pyRStripChars (chars ".git") path0))))

/-- `normalize_github_url_canonical` from `utils/validation.py`. -/
def normalize_github_url_canonical (url0 : Str) : Option Str :=
  if url0 = [] then none
  else canonicalCleanPath (canonicalExtractPath (canonicalFixDouble (pyStrip url0)))

/-- Python `datetime.date` values as produced by `parse_period`. -/
structure PyDate where
  year : Int
  month : Nat
  day : Nat
deriving DecidableEq

/-- The Russian month-name vocabulary of `parse_period`. -/
def monthPairs : List (Str × Nat) :=
  [(chars "Январь", 1), (chars "Февраль", 2), (chars "Март", 3),
   (chars "Апрель", 4), (chars "Май", 5), (chars "Июнь", 6),
   (chars "Июль", 7), (chars "Август", 8), (chars "Сентябрь", 9),
   (chars "Октябрь", 10), (chars "Ноябрь", 11), (chars "Декабрь", 12)]

/-- `parse_period` from `utils/validation.py`: split the comma-free,
stripped string on whitespace, read the second token as the year and the
first as a Russian month name, and build the first day of that month.
`date(...)` raising on an out-of-range year is modelled by the year
bounds check (Python's `MINYEAR`/`MAXYEAR`). -/
def parse_period (s : Str) : Option PyDate :=
  if s = [] then none
  else
    match pySplitWs (pyStrip (pyReplace (chars ",") [] s)) with
    | monthName :: yearStr :: _ =>
      match pyInt yearStr with
      | none => none
      | some y =>
        match monthPairs.lookup monthName with
        | some m => if 1 ≤ y ∧ y ≤ 9999 then some ⟨y, m, 1⟩ else none
        | none => none
    | _ => none

/-! ## Row processing (`services/data_processor.py`)

`clean_and_validate` reads the cell at each field's column index (absent
when the row is shorter), string-trims it, and applies the field's
normalizer.  Python truthiness of an optional string (`None` and `""`
are falsy) is `truthyOpt`. -/

/-- The cell at index `i`, the empty string when the row is shorter
(used to phrase cell accesses that the code only performs after a
length check). -/
def cellD (row : List Str) (i : Nat) : Str := (row.get? i).getD []

/-- The cell at index `i` after `clean_string` (`None` when the row is
shorter than `i + 1`). -/
def cleanCell (row : List Str) (i : Nat) : Option Str := (row.get? i).map pyStrip

/-- Python truthiness of an optional string: `None` and `""` are falsy. -/
def truthyOpt (v : Option Str) : Bool :=
  match v with
  | some s => ¬ s.isEmpty
  | none => false

/-- Validator `lambda x: x.strip() if x else None` applied to a cleaned cell. -/
def stripOrNone (v : Option Str) : Option Str :=
  match v with
  | some s => if s.isEmpty then none else some (pyStrip s)
  | none => none

/-- Validator `lambda x: x.strip() if x else ""` applied to a cleaned cell. -/
def stripOrEmpty (v : Option Str) : Str :=
  match v with
  | some s => if s.isEmpty then [] else pyStrip s
  | none => []

/-- Validator `normalize_github_url` applied to a cleaned cell
(`normalize_github_url(None)` is `None` via its falsy-input guard). -/
def normalizeUrlCell (v : Option Str) : Option Str :=
  match v with
  | some s => normalize_github_url s
  | none => none

/-- A processed project record (`_process_projects` output dict).  The
filter `_filter_project` guarantees `name` and `author_github_url` are
truthy, so they are stored as plain strings. -/
structure ProjRec where
  name : Str
  language : Str
  repository_url : Str
  author_github_url : Str
  submission_date : Option PyDate
deriving DecidableEq

/-- The period-header test of `_process_projects` (line 230):
`len(row) <= 2 or (len(row) > 1 and not row[1].strip())`. -/
def projectRowIsMarker (row : List Str) : Bool :=
  row.length ≤ 2 || (row.length > 1 && (pyStrip (cellD row 1)).isEmpty)

/-- The period carried by a marker row:
`parse_period(row[0]) if row and row[0] else None`. -/
def markerPeriod (row : List Str) : Option PyDate :=
  if row ≠ [] ∧ cellD row 0 ≠ [] then parse_period (cellD row 0) else none

/-- The loop of `_process_projects`, threading the `current_period`
state: marker rows update the period and emit nothing; short rows are
dropped; other rows are extracted, filtered and emitted with the
current period as submission date. -/
def processProjectsGo (cur : Option PyDate) : List (List Str) → List ProjRec
  | [] => []
  | row :: rest =>
    if projectRowIsMarker row then processProjectsGo (markerPeriod row) rest
    else if row.length < 8 then processProjectsGo cur rest
    else
      let name := stripOrNone (cleanCell row 1)
      let language := stripOrEmpty (cleanCell row 2)
      let repository_url := stripOrEmpty (cleanCell row 4)
      let author := normalizeUrlCell (cleanCell row 6)
      if truthyOpt name && truthyOpt author then
        { name := name.getD [], language := language, repository_url := repository_url,
          author_github_url := author.getD [], submission_date := cur } :: processProjectsGo cur rest
      else processProjectsGo cur rest

/-- `_process_projects`: the `current_period` starts out as `None`. -/
def processProjects (rows : List (List Str)) : List ProjRec :=
  processProjectsGo none rows

/-- A processed sponsored-review record (`_process_sponsored_reviews`
output dict).  The wall-clock `created_at` debug timestamp is not
modelled (it is never read by the importer). -/
structure SponsoredRec where
  period : Option Str
  mentor_identifier : Str
  project_github_url : Str
  project_name : Str
  telegram_message_url : Option Str
  cost : ℚ
  currency : Str
  payment_status : Str
deriving DecidableEq

/-- The header keywords of the sponsored-review header-row skip
heuristic. -/
def headerKeywords : List Str :=
  [chars "период", chars "github", chars "telegram", chars "стоимость",
   chars "ревью", chars "месяц"]

/-- The three `continue`-without-counting guards at the top of the
sponsored-review loop: blank rows, header-keyword rows, and
"period-only" rows (first cell non-blank, all others blank). -/
def sponsoredSkip (row : List Str) : Bool :=
  (row.isEmpty || row.all (fun cell => (pyStrip cell).isEmpty))
  || (row.length ≥ 1 && headerKeywords.any
        (fun kw => decide (pyLower kw <:+: pyLower (cellD row 0))))
  || (row.length ≥ 1 && ¬ (pyStrip (cellD row 0)).isEmpty
        && (row.drop 1).all (fun cell => (pyStrip cell).isEmpty))

/-- Cost parsing of `_process_sponsored_reviews`: strip the currency
symbols `$`, `€`, `₽`, normalize decimal comma to dot, strip, and
parse with Python `float`. -/
def sponsoredCost (cost : Str) : Option ℚ :=
  pyFloat (pyStrip (pyReplace (chars ",") (chars ".")
    (pyReplace (chars "₽") []
      (pyReplace (chars "€") []
        (pyReplace (chars "$") [] cost)))))

/-- Outcome of one iteration of the sponsored-review loop. -/
inductive SpRowOutcome where
  | skipped
  | invalid
  | record (r : SponsoredRec)
deriving DecidableEq

/-- The extracted-and-cleaned cell at index `i` of a sponsored-review
row: `str(row[i]).strip() if row[i] else None`. -/
def spCell (row : List Str) (i : Nat) : Option Str :=
  if cellD row i ≠ [] then some (pyStrip (cellD row i)) else none

/-- One iteration of the `_process_sponsored_reviews` loop:
`skipped` = a `continue` without counting, `invalid` = a `continue`
after `validation_errors += 1`, `record` = a retained record.
`spCell row 0/1/2/3/4` are the locals `period`, `project_github_url`,
`telegram_message_url`, `mentor_telegram` and `cost_str` of the loop
body. -/
def sponsoredRowOutcome (row : List Str) : SpRowOutcome :=
  if sponsoredSkip row then .skipped
  else if row.length < 5 then .invalid
  else if ¬ (truthyOpt (spCell row 3) && truthyOpt (spCell row 1)
      && truthyOpt (spCell row 4)) then .invalid
  else if ¬ (chars "https://github.com/").isPrefixOf ((spCell row 1).getD []) then .invalid
  else
    match sponsoredCost ((spCell row 4).getD []) with
    | none => .invalid
    | some c =>
      if c < 0 then .invalid
      else
        .record { period := spCell row 0,
                  mentor_identifier := (spCell row 3).getD [],
                  project_github_url := (spCell row 1).getD [],
                  project_name := pyReplace (chars ".git") []
                    ((pySplit (chars "/") ((spCell row 1).getD [])).getLastD []),
                  telegram_message_url := spCell row 2,
                  cost := c,
                  currency := chars "USD",
                  payment_status := chars "pending" }

/-- `_process_sponsored_reviews`: returns the retained records, the
`validation_errors` counter and the `imported` counter. -/
def processSponsoredReviews : List (List Str) → List SponsoredRec × Nat × Nat
  | [] => ([], 0, 0)
  | row :: rest =>
    let r := processSponsoredReviews rest
    match sponsoredRowOutcome row with
    | .skipped => r
    | .invalid => (r.1, r.2.1 + 1, r.2.2)
    | .record rec => (rec :: r.1, r.2.1, r.2.2 + 1)

/-! ## Database model and import engine (`services/import_service.py`)

The relational store is a record of table contents.  Queries and
in-transaction writes run against the session's pending state; the
committed state changes only at `commit`/`rollback`, which
`importToDatabase` models below.  SQLAlchemy's `scalar_one_or_none`
raising `MultipleResultsFound` on a multi-row result is modelled by
`scalarOneOrNone` returning an `Except`.  Autoincrement primary keys
are modelled as max-id-plus-one. -/

structure UserRow where
  id : Nat
  telegram_username : Option Str
  telegram_user_id : Option Nat
  github_url : Option Str
deriving DecidableEq

structure RoleRow where
  id : Nat
  name : Str
deriving DecidableEq

structure UserRoleRow where
  user_id : Nat
  role_id : Nat
deriving DecidableEq

structure MentorProfileRow where
  user_id : Nat
  full_name : Str
  languages : Str
  services : Str
  price_type : Str
  website_url : Str
deriving DecidableEq

structure ProjectRow where
  id : Nat
  name : Str
  language : Str
  repository_url : Option Str
  submission_date : Option PyDate
  student_id : Nat
deriving DecidableEq

structure ReviewRow where
  id : Nat
  project_id : Nat
  mentor_id : Nat
  period_date : Option PyDate
  review_type : Str
  review_url : Option Str
deriving DecidableEq

structure SponsoredReviewRow where
  id : Nat
  review_id : Option Nat
  project_id : Nat
  mentor_id : Nat
  cost : ℚ
  currency : Str
  payment_status : Str
  notes : Str
  telegram_message_url : Option Str
  payment_date_set : Bool
deriving DecidableEq

structure DB where
  users : List UserRow
  roles : List RoleRow
  user_roles : List UserRoleRow
  mentor_profiles : List MentorProfileRow
  projects : List ProjectRow
  reviews : List ReviewRow
  sponsored_reviews : List SponsoredReviewRow
deriving DecidableEq

/-- Faults raised by the modelled storage layer. -/
inductive PyErr where
  | multipleResultsFound
  | zeroDivisionError
deriving DecidableEq

instance {ε α : Type} [DecidableEq ε] [DecidableEq α] : DecidableEq (Except ε α)
  | .ok a, .ok b =>
    if h : a = b then isTrue (by rw [h])
    else isFalse (by intro hh; cases hh; exact h rfl)
  | .ok _, .error _ => isFalse (by intro hh; cases hh)
  | .error _, .ok _ => isFalse (by intro hh; cases hh)
  | .error e, .error f =>
    if h : e = f then isTrue (by rw [h])
    else isFalse (by intro hh; cases hh; exact h rfl)

/-- SQLAlchemy `scalar_one_or_none`: `None` on zero rows, the row on one
row, `MultipleResultsFound` raised on two or more. -/
def scalarOneOrNone {α : Type} : List α → Except PyErr (Option α)
  | [] => .ok none
  | [a] => .ok (some a)
  | _ => .error .multipleResultsFound

/-- New autoincrement id: one more than the largest id present. -/
def nextId (ids : List Nat) : Nat := ids.foldr max 0 + 1

/-- Python truthiness of an optional integer (`None` and `0` are falsy). -/
def truthyNat (v : Option Nat) : Bool :=
  match v with
  | some n => n ≠ 0
  | none => false

/-- Python `a or b` on optional integers (used for
`user_data.get("telegram_user_id") or user.telegram_user_id`). -/
def pyOrNat (a b : Option Nat) : Option Nat := if truthyNat a then a else b

/-- Python `a or b` on optional strings (used for
`user_data.get("github_url") or user.github_url`). -/
def pyOrStr (a b : Option Str) : Option Str := if truthyOpt a then a else b

/-- Identity maps are Python dicts keyed by strings; insertion
overwrites, lookup returns the latest binding. -/
def dictInsert (k : Str) (v : Nat) (m : List (Str × Nat)) : List (Str × Nat) :=
  (k, v) :: m

/-- `_find_review_by_url`: exact match of the message URL against
`Review.review_url`, no fallback; the `mentor_id`/`project_id`
arguments are accepted but unused.  The falsy-URL guard covers both
`None` and the empty string. -/
def findReviewByUrl (db : DB) (telegram_message_url : Option Str)
    (mentor_id project_id : Nat) : Except PyErr (Option Nat) :=
  if ¬ truthyOpt telegram_message_url then .ok none
  else do
    let _ := mentor_id
    let _ := project_id
    let r ← scalarOneOrNone
      (db.reviews.filter (fun rv => rv.review_url = telegram_message_url))
    pure (r.map (fun rv => rv.id))

/-- The eligibility test of strategy 4 of `_find_project_by_github_url`:
any containment, in either direction, of either search string in the
candidate's (lowered, stripped) name. -/
def strategy4Gate (searchName repoName cand : Str) : Prop :=
  searchName <:+: cand ∨ cand <:+: searchName ∨ repoName <:+: cand ∨ cand <:+: repoName

instance (searchName repoName cand : Str) :
    Decidable (strategy4Gate searchName repoName cand) := by
  unfold strategy4Gate; infer_instance

/-- The similarity score of strategy 4: `len(search)/len(candidate)`
added only when the search string is contained in the candidate name
(the superset direction adds nothing).  Exact rational arithmetic
models Python's float division; the pipeline only compares the score
against 0.3. -/
def strategy4Score (searchName repoName cand : Str) : ℚ :=
  (if searchName <:+: cand then (searchName.length : ℚ) / (cand.length : ℚ) else 0)
  + (if repoName <:+: cand then (repoName.length : ℚ) / (cand.length : ℚ) else 0)

/-- One candidate test of strategy 4, on the already lowered and
stripped search name, repo name and candidate name.  A zero-length
candidate reached by a division (`len(x)/len("")`) raises
`ZeroDivisionError`, as in Python. -/
def strategy4Step (searchName repoName cand : Str) : Except PyErr Bool :=
  if strategy4Gate searchName repoName cand then
    if (searchName <:+: cand ∨ repoName <:+: cand) ∧ cand = [] then
      .error .zeroDivisionError
    else .ok (decide (strategy4Score searchName repoName cand > 3 / 10))
  else .ok false

/-- The strategy-4 loop over the candidate projects (first accepted
candidate wins). -/
def strategy4Find (searchName repoName : Str) :
    List ProjectRow → Except PyErr (Option Nat)
  | [] => .ok none
  | p :: rest => do
    let accepted ← strategy4Step searchName repoName (pyStrip (pyLower p.name))
    if accepted then pure (some p.id)
    else strategy4Find searchName repoName rest

/-- Strategy 3 of `_find_project_by_github_url`: extract `owner`/`repo`
from the canonical URL and substring-match both (lowered) against each
candidate's raw stored URL. -/
def strategy3Find (all_projects : List ProjectRow) (canonical : Str) : Option Nat :=
  if chars "github.com/" <:+: canonical then
    let path := (pySplit (chars "github.com/") canonical).getLastD []
    match pySplit (chars "/") path with
    | owner :: repo :: _ =>
      (all_projects.find? (fun p =>
        match p.repository_url with
        | some u => ¬ u.isEmpty
            && decide (pyLower owner <:+: pyLower u)
            && decide (pyLower repo <:+: pyLower u)
        | none => false)).map (fun p => p.id)
    | _ => none
  else none

/-- `_find_project_by_github_url`: the four-strategy cascade.  In
strategy 2's inner test, a canonical form is never the empty string, so
Python's `if project_canonical and project_canonical == canonical_url`
is equality against the canonical input. -/
def findProjectByGithubUrl (projects : List ProjectRow) (github_url : Str)
    (project_name : Option Str) : Except PyErr (Option Nat) :=
  if github_url = [] then .ok none
  else
    match normalize_github_url_canonical github_url with
    | none => .ok none
    | some canonical => do
      let m1 ← scalarOneOrNone
        (projects.filter (fun p => p.repository_url = some canonical))
      match m1 with
      | some p => pure (some p.id)
      | none =>
        let all_projects := projects.filter (fun p => p.repository_url ≠ none)
        match all_projects.find? (fun p =>
          match p.repository_url with
          | some u => ¬ u.isEmpty
              && (normalize_github_url_canonical u == some canonical)
          | none => false) with
        | some p => pure (some p.id)
        | none =>
          match strategy3Find all_projects canonical with
          | some pid => pure (some pid)
          | none =>
            match project_name with
            | some pn =>
              if pn = [] then pure none
              else
                strategy4Find (pyStrip (pyLower pn))
                  (pyLower ((pySplit (chars "/") canonical).getLastD []))
                  all_projects
            | none => pure none

/-- Descending insertion by id (the fallback query's
`order_by(Review.id.desc())`). -/
def insertDescById (r : ReviewRow) : List ReviewRow → List ReviewRow
  | [] => [r]
  | x :: xs => if x.id ≤ r.id then r :: x :: xs else x :: insertDescById r xs

/-- The review list ordered by descending id. -/
def orderByIdDesc (l : List ReviewRow) : List ReviewRow :=
  l.foldr insertDescById []

/-- The per-record statistics of `_import_to_database`. -/
structure ImportStats where
  students_created : Nat
  students_errors : Nat
  mentors_created : Nat
  mentors_errors : Nat
  projects_created : Nat
  projects_linking_errors : Nat
  reviews_created : Nat
  reviews_linking_errors : Nat
  sponsored_created : Nat
  sponsored_linking_errors : Nat
deriving DecidableEq

def zeroStats : ImportStats := ⟨0, 0, 0, 0, 0, 0, 0, 0, 0, 0⟩

/-- The body of one iteration of the `_import_sponsored_reviews` loop.
Any modelled fault (`MultipleResultsFound` from the fallback lookup,
`ZeroDivisionError` from strategy 4) is caught by the per-row
`except Exception: continue`, dropping the row; the `session.add` is
the last statement of the body, so a caught fault never leaves a
partial insert. -/
def importSponsoredReviewRow (maps : List (Str × Nat) × List (Str × Nat))
    (db : DB) (st : ImportStats) (rec : SponsoredRec) : DB × ImportStats :=
  let telegramToUserId := maps.2
  let body : Except PyErr (DB × ImportStats) := do
    let mentor_id :=
      if (chars "@").isPrefixOf rec.mentor_identifier then
        telegramToUserId.lookup (pyLower (rec.mentor_identifier.drop 1))
      else none
    if ¬ truthyNat mentor_id then
      pure (db, { st with sponsored_linking_errors := st.sponsored_linking_errors + 1 })
    else do
      let project_id ← findProjectByGithubUrl db.projects rec.project_github_url
        (some rec.project_name)
      if ¬ truthyNat project_id then
        pure (db, { st with sponsored_linking_errors := st.sponsored_linking_errors + 1 })
      else do
        let mid := mentor_id.getD 0
        let pid := project_id.getD 0
        let urlMatch ← findReviewByUrl db rec.telegram_message_url mid pid
        let review_id ←
          match urlMatch with
          | some rid => pure (some rid)
          | none => do
            let fb ← scalarOneOrNone (orderByIdDesc
              (db.reviews.filter (fun r => r.mentor_id = mid ∧ r.project_id = pid)))
            pure (fb.map (fun r => r.id))
        let sr : SponsoredReviewRow :=
          { id := nextId (db.sponsored_reviews.map (fun r => r.id)),
            review_id := review_id,
            project_id := pid,
            mentor_id := mid,
            cost := rec.cost,
            currency := rec.currency,
            payment_status := rec.payment_status,
            notes := chars "Period: " ++ (match rec.period with
              | some p => p
              | none => chars "None"),
            telegram_message_url := rec.telegram_message_url,
            payment_date_set := rec.payment_status = chars "paid" }
        pure ({ db with sponsored_reviews := db.sponsored_reviews ++ [sr] },
              { st with sponsored_created := st.sponsored_created + 1 })
  match body with
  | .ok r => r
  | .error _ => (db, st)

/-- The `_import_sponsored_reviews` loop. -/
def importSponsoredReviews (maps : List (Str × Nat) × List (Str × Nat)) :
    DB → ImportStats → List SponsoredRec → DB × ImportStats
  | db, st, [] => (db, st)
  | db, st, rec :: rest =>
    let r := importSponsoredReviewRow maps db st rec
    importSponsoredReviews maps r.1 r.2 rest

/-- A processed student or mentor dict as consumed by `_import_users`
(mentors are passed with `telegram_user_id = None`). -/
structure UserRec where
  telegram_username : Option Str
  telegram_user_id : Option Nat
  github_url : Option Str
deriving DecidableEq

/-- The mentor-profile sub-dict of a processed mentor. -/
structure MentorProfile where
  full_name : Str
  languages : Str
  services : Str
  price_type : Str
  website_url : Str
deriving DecidableEq

/-- A processed mentor dict. -/
structure MentorRec where
  telegram_username : Option Str
  github_url : Option Str
  profile : MentorProfile
deriving DecidableEq

/-- A processed review dict. -/
structure ReviewRec where
  project_name : Option Str
  mentor_telegram : Option Str
  repository_url : Str
  period_date : Option PyDate
  review_type : Str
  review_url : Str
deriving DecidableEq

/-- The identity maps built during the import
(`github_url → user_id`, `lowercased telegram handle → user_id`). -/
structure IdMaps where
  github : List (Str × Nat)
  telegram : List (Str × Nat)
deriving DecidableEq

/-- `_find_existing_user`: case-insensitive lookup by Telegram handle
when one is present (SQL `lower` leaves `NULL` unmatched), else exact
lookup by GitHub URL. -/
def findExistingUser (users : List UserRow) (rec : UserRec) :
    Except PyErr (Option UserRow) :=
  if truthyOpt rec.telegram_username then
    scalarOneOrNone (users.filter (fun u =>
      match u.telegram_username with
      | some t => pyLower t = pyLower (rec.telegram_username.getD [])
      | none => false))
  else if truthyOpt rec.github_url then
    scalarOneOrNone (users.filter (fun u => u.github_url = rec.github_url))
  else .ok none

/-- `_get_or_create_role`. -/
def getOrCreateRole (db : DB) (name : Str) : Except PyErr (Nat × DB) := do
  let r ← scalarOneOrNone (db.roles.filter (fun r => r.name = name))
  match r with
  | some role => pure (role.id, db)
  | none =>
    let rid := nextId (db.roles.map (fun r => r.id))
    pure (rid, { db with roles := db.roles ++ [⟨rid, name⟩] })

/-- The body of one iteration of the `_import_users` loop, with its
per-row `except`: a fault from `_find_existing_user` leaves the row
untouched; a fault from the role-membership query still keeps the user
insert/update already applied to the session. -/
def importUserRow (roleId : Nat) (isMentor : Bool) (db : DB) (maps : IdMaps)
    (st : ImportStats) (bumpCreated bumpErrors : ImportStats → ImportStats)
    (rec : UserRec) : DB × IdMaps × ImportStats :=
  match findExistingUser db.users rec with
  | .error _ => (db, maps, bumpErrors st)
  | .ok existing =>
    let userAndDb : UserRow × DB :=
      match existing with
      | some u =>
        let u1 :=
          if isMentor then { u with telegram_user_id := none }
          else { u with telegram_user_id := pyOrNat rec.telegram_user_id u.telegram_user_id }
        let u2 := { u1 with github_url := pyOrStr rec.github_url u1.github_url }
        (u2, { db with users := db.users.map (fun x => if x.id = u.id then u2 else x) })
      | none =>
        let uid := nextId (db.users.map (fun u => u.id))
        let u : UserRow := ⟨uid, rec.telegram_username, rec.telegram_user_id, rec.github_url⟩
        (u, { db with users := db.users ++ [u] })
    let user := userAndDb.1
    let db1 := userAndDb.2
    match scalarOneOrNone (db1.user_roles.filter (fun ur =>
        ur.user_id = user.id ∧ ur.role_id = roleId)) with
    | .error _ => (db1, maps, bumpErrors st)
    | .ok found =>
      let db2 :=
        if found.isSome then db1
        else { db1 with user_roles := db1.user_roles ++ [⟨user.id, roleId⟩] }
      let maps1 :=
        if truthyOpt user.github_url then
          { maps with github := dictInsert (user.github_url.getD []) user.id maps.github }
        else maps
      let maps2 :=
        if truthyOpt user.telegram_username then
          { maps1 with telegram :=
              dictInsert (pyLower (user.telegram_username.getD [])) user.id maps1.telegram }
        else maps1
      (db2, maps2, bumpCreated st)

/-- The `_import_users` loop after role resolution. -/
def importUsersGo (roleId : Nat) (isMentor : Bool)
    (bumpCreated bumpErrors : ImportStats → ImportStats) :
    DB → IdMaps → ImportStats → List UserRec → DB × IdMaps × ImportStats
  | db, maps, st, [] => (db, maps, st)
  | db, maps, st, rec :: rest =>
    let r := importUserRow roleId isMentor db maps st bumpCreated bumpErrors rec
    importUsersGo roleId isMentor bumpCreated bumpErrors r.1 r.2.1 r.2.2 rest

/-- `_import_users`: resolve (or create) the role — outside the per-row
`except`, so a fault here aborts the transaction — then upsert each
record. -/
def importUsers (db : DB) (maps : IdMaps) (st : ImportStats) (roleName : Str)
    (recs : List UserRec) : Except PyErr (DB × IdMaps × ImportStats) := do
  let (roleId, db1) ← getOrCreateRole db roleName
  let isMentor := roleName = chars "MENTOR"
  let bumpCreated : ImportStats → ImportStats :=
    if roleName = chars "STUDENT" then fun s => { s with students_created := s.students_created + 1 }
    else fun s => { s with mentors_created := s.mentors_created + 1 }
  let bumpErrors : ImportStats → ImportStats :=
    if roleName = chars "STUDENT" then fun s => { s with students_errors := s.students_errors + 1 }
    else fun s => { s with mentors_errors := s.mentors_errors + 1 }
  pure (importUsersGo roleId isMentor bumpCreated bumpErrors db1 maps st recs)

/-- A processed mentor viewed as the user dict handed to `_import_users`
(`telegram_user_id` is always `None` for mentors). -/
def mentorToUserRec (m : MentorRec) : UserRec :=
  ⟨m.telegram_username, none, m.github_url⟩

/-- One iteration of the `_import_mentor_profiles` loop. -/
def importMentorProfileRow (telegramMap : List (Str × Nat)) (db : DB)
    (m : MentorRec) : DB :=
  match m.telegram_username with
  | none => db
  | some tu =>
    if tu = [] then db
    else
      match telegramMap.lookup tu with
      | none => db
      | some uid =>
        let p : MentorProfileRow :=
          ⟨uid, m.profile.full_name, m.profile.languages, m.profile.services,
           m.profile.price_type, m.profile.website_url⟩
        if (db.mentor_profiles.find? (fun q => q.user_id = uid)).isSome then
          { db with mentor_profiles :=
              db.mentor_profiles.map (fun q => if q.user_id = uid then p else q) }
        else { db with mentor_profiles := db.mentor_profiles ++ [p] }

/-- `_import_mentor_profiles`. -/
def importMentorProfiles (telegramMap : List (Str × Nat)) :
    DB → List MentorRec → DB
  | db, [] => db
  | db, m :: rest =>
    importMentorProfiles telegramMap (importMentorProfileRow telegramMap db m) rest

/-- One iteration of the `_import_projects` loop, also returning the
updated `project_name → id` map. -/
def importProjectRow (githubMap : List (Str × Nat)) (db : DB)
    (nameMap : List (Str × Nat)) (st : ImportStats) (rec : ProjRec) :
    DB × List (Str × Nat) × ImportStats :=
  if rec.author_github_url = [] ∨ (githubMap.lookup rec.author_github_url) = none then
    (db, nameMap, { st with projects_linking_errors := st.projects_linking_errors + 1 })
  else
    let sid := (githubMap.lookup rec.author_github_url).getD 0
    let pid := nextId (db.projects.map (fun p => p.id))
    let p : ProjectRow :=
      ⟨pid, rec.name, rec.language, some rec.repository_url, rec.submission_date, sid⟩
    ({ db with projects := db.projects ++ [p] },
     dictInsert rec.name pid nameMap,
     { st with projects_created := st.projects_created + 1 })

/-- `_import_projects`. -/
def importProjects (githubMap : List (Str × Nat)) :
    DB → List (Str × Nat) → ImportStats → List ProjRec →
      DB × List (Str × Nat) × ImportStats
  | db, nameMap, st, [] => (db, nameMap, st)
  | db, nameMap, st, rec :: rest =>
    let r := importProjectRow githubMap db nameMap st rec
    importProjects githubMap r.1 r.2.1 r.2.2 rest

/-- One iteration of the `_import_reviews` loop. -/
def importReviewRow (nameMap telegramMap : List (Str × Nat)) (db : DB)
    (st : ImportStats) (rec : ReviewRec) : DB × ImportStats :=
  let mentor_id :=
    match rec.mentor_telegram with
    | some s => telegramMap.lookup s
    | none => none
  let project_id :=
    match rec.project_name with
    | some s => nameMap.lookup s
    | none => none
  if ¬ truthyNat mentor_id then
    (db, { st with reviews_linking_errors := st.reviews_linking_errors + 1 })
  else if ¬ truthyNat project_id then
    (db, { st with reviews_linking_errors := st.reviews_linking_errors + 1 })
  else
    let rv : ReviewRow :=
      ⟨nextId (db.reviews.map (fun r => r.id)), project_id.getD 0, mentor_id.getD 0,
       rec.period_date, rec.review_type, some rec.review_url⟩
    ({ db with reviews := db.reviews ++ [rv] },
     { st with reviews_created := st.reviews_created + 1 })

/-- `_import_reviews`. -/
def importReviews (nameMap telegramMap : List (Str × Nat)) :
    DB → ImportStats → List ReviewRec → DB × ImportStats
  | db, st, [] => (db, st)
  | db, st, rec :: rest =>
    let r := importReviewRow nameMap telegramMap db st rec
    importReviews nameMap telegramMap r.1 r.2 rest

/-- `_clear_database`: delete all rows of the owned tables in
dependency order; the `roles` reference table is preserved.  The
per-table existence checks are modelled as all tables existing, and the
`User` delete cascades to `user_roles`. -/
def clearDatabase (db : DB) : DB :=
  { users := [], roles := db.roles, user_roles := [], mentor_profiles := [],
    projects := [], reviews := [], sponsored_reviews := [] }

/-- The full processed-data structure handed to `_import_to_database`
(`sponsored_reviews` is `none` when the key is absent). -/
structure ProcessedData where
  students : List UserRec
  mentors : List MentorRec
  projects : List ProjRec
  reviews : List ReviewRec
  sponsored_reviews : Option (List SponsoredRec)
deriving DecidableEq

/-- A fault aborting the import transaction: either a modelled Python
fault from the storage layer, or a fault injected at step `k` of the
transaction body (the claims quantify over `any uncaught fault ...
anywhere inside the import transaction`; injection points 0–6 precede
the clear and each import step, 7 is the commit itself). -/
inductive ImportFault where
  | py (e : PyErr)
  | injected (k : Nat)
deriving DecidableEq

/-- The transaction body of `_import_to_database` without fault
injection: clear the owned tables, then run every import step against
the session state. -/
def importBody (enableFinancial : Bool) (dbc : DB) (data : ProcessedData) :
    Except PyErr (DB × ImportStats) := do
  let (db2, maps1, st1) ← importUsers dbc ⟨[], []⟩ zeroStats (chars "STUDENT") data.students
  let (db3, maps2, st2) ← importUsers db2 maps1 st1 (chars "MENTOR")
    (data.mentors.map mentorToUserRec)
  let db4 := importMentorProfiles maps2.telegram db3 data.mentors
  let (db5, nameMap, st3) := importProjects maps2.github db4 [] st2 data.projects
  let (db6, st4) := importReviews nameMap maps2.telegram db5 st3 data.reviews
  let r :=
    if enableFinancial then
      match data.sponsored_reviews with
      | some srs => importSponsoredReviews (nameMap, maps2.telegram) db6 st4 srs
      | none => (db6, st4)
    else (db6, st4)
  pure r

/-- One fault-injection point: `fault = some k` makes the transaction
raise an uncaught fault just before step `k` (`k = 7` being the commit
itself). -/
def importCheck (fault : Option (Fin 8)) (k : Nat) : Except ImportFault Unit :=
  match fault with
  | some f => if f.val = k then .error (.injected k) else .ok ()
  | none => .ok ()

/-- The transaction body of `_import_to_database` with the
fault-injection points in place. -/
def importRun (enableFinancial : Bool) (db0 : DB) (data : ProcessedData)
    (fault : Option (Fin 8)) : Except ImportFault (DB × ImportStats) := do
  importCheck fault 0
  let dbc := clearDatabase db0
  importCheck fault 1
  let (db2, maps1, st1) ← (importUsers dbc ⟨[], []⟩ zeroStats (chars "STUDENT")
    data.students).mapError .py
  importCheck fault 2
  let (db3, maps2, st2) ← (importUsers db2 maps1 st1 (chars "MENTOR")
    (data.mentors.map mentorToUserRec)).mapError .py
  importCheck fault 3
  let db4 := importMentorProfiles maps2.telegram db3 data.mentors
  importCheck fault 4
  let (db5, nameMap, st3) := importProjects maps2.github db4 [] st2 data.projects
  importCheck fault 5
  let (db6, st4) := importReviews nameMap maps2.telegram db5 st3 data.reviews
  importCheck fault 6
  let r :=
    if enableFinancial then
      match data.sponsored_reviews with
      | some srs => importSponsoredReviews (nameMap, maps2.telegram) db6 st4 srs
      | none => (db6, st4)
    else (db6, st4)
  importCheck fault 7
  pure r

/-- `_import_to_database`: the `try`/`except` around the transaction.
The first component is the run outcome, the second the committed state
readers observe: the fresh snapshot after `commit`, or the untouched
prior state after `rollback`. -/
def importToDatabase (enableFinancial : Bool) (db0 : DB) (data : ProcessedData)
    (fault : Option (Fin 8)) : Except ImportFault ImportStats × DB :=
  match importRun enableFinancial db0 data fault with
  | .ok (db', st) => (.ok st, db')
  | .error e => (.error e, db0)

/-! ## Claim-side definitions

The definitions in this section transcribe sentences of the
specification (not the code); they are compared with the embedded code
in the theorems below. -/

/-- The claimed strategy-4 score: `len(overlap)/len(candidate_name)`
accumulated for each of the two search strings that is a substring of,
or a superset of, the candidate name — the overlap being the contained
string in either direction.  (Transcribed from the spec, §4.5 item 4.) -/
def claimStrategy4Score (searchName repoName cand : Str) : ℚ :=
  (if searchName <:+: cand then (searchName.length : ℚ) / (cand.length : ℚ)
   else if cand <:+: searchName then (cand.length : ℚ) / (cand.length : ℚ)
   else 0)
  + (if repoName <:+: cand then (repoName.length : ℚ) / (cand.length : ℚ)
     else if cand <:+: repoName then (cand.length : ℚ) / (cand.length : ℚ)
     else 0)

/-- The claimed strategy-4 acceptance: combined score above 0.3. -/
def claimStrategy4Accept (searchName repoName cand : Str) : Prop :=
  claimStrategy4Score searchName repoName cand > 3 / 10

instance (searchName repoName cand : Str) :
    Decidable (claimStrategy4Accept searchName repoName cand) := by
  unfold claimStrategy4Accept; infer_instance

/-- Amended strategy-4 eligibility: some containment, in either
direction, between a search string and the candidate name. -/
def specFuzzyEligible (searchName repoName cand : Str) : Prop :=
  (searchName <:+: cand ∨ cand <:+: searchName)
  ∨ (repoName <:+: cand ∨ cand <:+: repoName)

instance (searchName repoName cand : Str) :
    Decidable (specFuzzyEligible searchName repoName cand) := by
  unfold specFuzzyEligible
  infer_instance

/-- Amended strategy-4 score: `len(s)/len(candidate)` summed over the
search strings `s` that are substrings of the candidate name (only that
direction contributes). -/
def specFuzzyScore (searchName repoName cand : Str) : ℚ :=
  (([searchName, repoName].filter (fun s => decide (s <:+: cand))).map
    (fun s => (s.length : ℚ) / (cand.length : ℚ))).sum

/-- Amended strategy-4 acceptance: eligible and amended score above 0.3. -/
def specFuzzyAccept (searchName repoName cand : Str) : Prop :=
  specFuzzyEligible searchName repoName cand
  ∧ specFuzzyScore searchName repoName cand > 3 / 10

instance (searchName repoName cand : Str) :
    Decidable (specFuzzyAccept searchName repoName cand) := by
  unfold specFuzzyAccept
  infer_instance

/-- Stripping a single leading `@`, as the claim for
`normalize_telegram_username` words it. -/
def stripOneAt : Str → Str
  | '@' :: t => t
  | s => s

/-- The claimed normalizer: trim, strip a SINGLE leading `@`,
lower-case, validate against `^[a-zA-Z0-9_]+$`.  (Transcribed from the
claim; the code strips every leading `@`.) -/
def telegramClaimNormalize (u : Str) : Option Str :=
  let t := pyLower (stripOneAt (pyStrip u))
  if reMatchHandle t then some t else none

/-- Amended normalizer, per the spec's wording with "a single leading
`@`" replaced by "all leading `@` characters". -/
def telegramSpecAmended (u : Str) : Option Str :=
  let t := pyLower (pyLStripChars (chars "@") (pyStrip u))
  if 0 < t.length ∧ ∀ c ∈ t, isHandleChar c then some t else none

/-- The character alphabet for which the URL-variant agreement theorem
is stated: ASCII letters, digits, dash and underscore. -/
def plainUrlChars : Str :=
  chars "abcdefghijklmnopqrstuvwxyzABCDEFGHIJKLMNOPQRSTUVWXYZ0123456789-_"

/-- Membership in the plain URL alphabet. -/
def plainUrlChar (c : Char) : Bool := plainUrlChars.contains c

/-- The five input variants of the URL canonicalization claim for a
given `owner`/`repo`. -/
def urlVariants (owner repo : Str) : List Str :=
  [owner ++ '/' :: repo,
   chars "github.com/" ++ owner ++ '/' :: repo,
   chars "http://github.com/" ++ owner ++ '/' :: repo,
   chars "https://github.com/" ++ owner ++ '/' :: repo ++ ['/'],
   chars "https://github.com/" ++ owner ++ '/' :: repo ++ chars ".git"]

/-- The retention conditions of the sponsored-review claim: mentor
cell, project URL cell and cost cell non-empty (after trimming), the
URL bearing the expected host prefix, and the cost parsing to a
non-negative value. -/
def costOkSpec (s : Str) : Prop :=
  ∃ q, sponsoredCost s = some q ∧ 0 ≤ q

instance (s : Str) : Decidable (costOkSpec s) :=
  match hc : sponsoredCost s with
  | some q => decidable_of_iff (0 ≤ q)
      ⟨fun h => ⟨q, hc, h⟩,
       fun hex => by
        obtain ⟨q2, hq2, h0⟩ := hex
        rw [hc] at hq2
        cases hq2
        exact h0⟩
  | none => isFalse (fun hex => by
      obtain ⟨q2, hq2, _⟩ := hex
      rw [hc] at hq2
      cases hq2)

def claimSponsoredRowOk (row : List Str) : Prop :=
  pyStrip (cellD row 3) ≠ []
  ∧ pyStrip (cellD row 1) ≠ []
  ∧ pyStrip (cellD row 4) ≠ []
  ∧ (chars "https://github.com/") <+: pyStrip (cellD row 1)
  ∧ costOkSpec (pyStrip (cellD row 4))

instance (row : List Str) : Decidable (claimSponsoredRowOk row) := by
  unfold claimSponsoredRowOk
  exact inferInstance

/-- One sheet row's effect on the carried "current period": a marker
row replaces it, any other row leaves it. -/
def periodStep (cur : Option PyDate) (row : List Str) : Option PyDate :=
  if projectRowIsMarker row then markerPeriod row else cur

/-- The period of the last period-marker row in a prefix of the project
sheet (`none` before the first marker, and when the last marker's first
cell does not parse). -/
def lastMarkerPeriod (rows : List (List Str)) : Option PyDate :=
  rows.foldl periodStep none

/-- The record a project data row yields under a given current period
(`none` when the row is dropped by length validation or filtering),
written from the spec's description of extraction and filtering. -/
def projDataRecord (cur : Option PyDate) (row : List Str) : Option ProjRec :=
  if row.length < 8 then none
  else
    let name := stripOrNone (cleanCell row 1)
    let author := normalizeUrlCell (cleanCell row 6)
    if truthyOpt name && truthyOpt author then
      some { name := name.getD [], language := stripOrEmpty (cleanCell row 2),
             repository_url := stripOrEmpty (cleanCell row 4),
             author_github_url := author.getD [], submission_date := cur }
    else none

/-- The `i`-th row of the sheet (empty when out of range; only used at
in-range indices). -/
def rowD (rows : List (List Str)) (i : Nat) : List Str := (rows.get? i).getD []

/-- Claim-side rendering of `_process_projects`: data rows (non-marker
rows), each extracted under the period of the last preceding marker
row; marker rows yield nothing. -/
def processProjectsSpec (rows : List (List Str)) : List ProjRec :=
  (List.range rows.length).filterMap (fun i =>
    if projectRowIsMarker (rowD rows i) then none
    else projDataRecord (lastMarkerPeriod (rows.take i)) (rowD rows i))

/-- The transaction body with the fault-injection points erased — used
to state that a committed import is exactly "clear, then repopulate". -/
def fullReplaceRun (enableFinancial : Bool) (db0 : DB) (data : ProcessedData) :
    Except PyErr (DB × ImportStats) :=
  importBody enableFinancial (clearDatabase db0) data

/-- A database state for exercising the sponsored-review association:
one project (id 20, owned by user 1) and two reviews by mentor 10 on
project 20 with distinct review URLs. -/
def c3DB : DB :=
  { users := [], roles := [], user_roles := [], mentor_profiles := [],
    projects := [⟨20, chars "proj", [], some (chars "https://github.com/o/r"), none, 1⟩],
    reviews := [⟨1, 20, 10, none, [], some (chars "u1")⟩,
                ⟨2, 20, 10, none, [], some (chars "u2")⟩],
    sponsored_reviews := [] }

/-- A processed sponsored review whose mentor and project resolve in
`c3DB` but whose message URL matches no review exactly. -/
def c3Rec : SponsoredRec :=
  { period := some (chars "x"), mentor_identifier := chars "@bob",
    project_github_url := chars "https://github.com/o/r",
    project_name := chars "r", telegram_message_url := some (chars "u3"),
    cost := 20, currency := chars "USD", payment_status := chars "pending" }

/-- Identity maps under which `c3Rec`'s mentor resolves to user 10. -/
def c3Maps : List (Str × Nat) × List (Str × Nat) :=
  ([(chars "proj", 20)], [(chars "bob", 10)])

/-! ## Helper lemmas about the string model -/

-- Rational arithmetic is kernel-computable; lifting the library's
-- irreducibility markers lets concrete similarity scores evaluate.
attribute [local semireducible] Rat.mul Rat.inv Rat.add

theorem infixOfPref {l₁ l₂ : Str} (h : l₁ <+: l₂) : l₁ <:+: l₂ := by
  obtain ⟨t, ht⟩ := h
  exact ⟨[], t, by simpa using ht⟩

theorem notInfixOfMemNot {pat s : Str} {c : Char} (hc : c ∈ pat) (hs : c ∉ s) :
    ¬ pat <:+: s := by
  intro h
  exact hs (h.subset hc)

theorem notPrefOfMemNot {pat s : Str} {c : Char} (hc : c ∈ pat) (hs : c ∉ s) :
    ¬ pat <+: s := fun h => notInfixOfMemNot hc hs (infixOfPref h)

theorem notInfixOfCountLt {pat s : Str} {c : Char} (h : s.count c < pat.count c) :
    ¬ pat <:+: s := by
  intro hinf
  exact absurd (hinf.sublist.count_le c) (by omega)

theorem singletonInfixIffMem {c : Char} {s : Str} : [c] <:+: s ↔ c ∈ s := by
  constructor
  · intro h
    exact h.subset (by simp)
  · intro h
    obtain ⟨l, r, rfl⟩ := List.append_of_mem h
    exact ⟨l, r, by simp⟩

theorem isPrefixOfFalse {l₁ l₂ : Str} (h : ¬ l₁ <+: l₂) : l₁.isPrefixOf l₂ = false := by
  by_contra hb
  exact h (by simpa using hb)

theorem dropWhileEqSelf {p : Char → Bool} {s : Str}
    (h : ∀ c ∈ s, p c = false) : s.dropWhile p = s := by
  cases s with
  | nil => rfl
  | cons a t => simp [List.dropWhile_cons, h a (by simp)]

theorem pyStripEqSelf {s : Str} (h : ∀ c ∈ s, pyIsSpace c = false) :
    pyStrip s = s := by
  unfold pyStrip pyLStrip pyRStrip
  rw [dropWhileEqSelf h]
  rw [dropWhileEqSelf (fun c hc => h c (by simpa using hc))]
  simp

theorem rstripCharsEqSelf {set s : Str} (hne : s ≠ [])
    (hc : set.contains (s.getLastD 'a') = false) : pyRStripChars set s = s := by
  unfold pyRStripChars
  have hrev : s.reverse ≠ [] := by simpa using hne
  obtain ⟨c, t, hct⟩ := List.exists_cons_of_ne_nil hrev
  have hs : s = t.reverse ++ [c] := by
    have h2 := congrArg List.reverse hct
    simpa using h2
  have hc2 : set.contains c = false := by
    have : s.getLastD 'a' = c := by rw [hs]; simp
    rw [← this]
    exact hc
  rw [hct, List.dropWhile_cons, hc2]
  simp [← hct]

theorem rstripCharsAppendSingle {set s : Str} {c : Char}
    (hc : set.contains c = true) :
    pyRStripChars set (s ++ [c]) = pyRStripChars set s := by
  unfold pyRStripChars
  have h1 : (s ++ [c]).reverse = c :: s.reverse := by simp
  rw [h1, List.dropWhile_cons, hc]
  simp

theorem pyLowerAppend (a b : Str) : pyLower (a ++ b) = pyLower a ++ pyLower b := by
  simp [pyLower]

/-! ### Evaluation lemmas for `pySplitGo` and `pyReplaceGo` -/

theorem pySplitGoFuelIrrel (pat : Str) :
    ∀ f g s cur, s.length ≤ f → s.length ≤ g →
      pySplitGo f pat s cur = pySplitGo g pat s cur := by
  intro f
  induction f with
  | zero =>
    intro g s cur hf _
    have : s = [] := List.length_eq_zero.mp (by omega)
    subst this
    cases g <;> rfl
  | succ f ih =>
    intro g s cur hf hg
    cases s with
    | nil => cases g <;> rfl
    | cons c rest =>
      cases g with
      | zero => simp at hg
      | succ g =>
        simp only [pySplitGo]
        split
        · next h =>
          have hd : (List.drop (pat.length - 1) rest).length ≤ f := by
            have := List.length_drop (pat.length - 1) rest
            simp at hf
            omega
          have hd2 : (List.drop (pat.length - 1) rest).length ≤ g := by
            have := List.length_drop (pat.length - 1) rest
            simp at hg
            omega
          rw [ih g _ [] hd hd2]
        · next h =>
          have h1 : rest.length ≤ f := by simp at hf; omega
          have h2 : rest.length ≤ g := by simp at hg; omega
          exact ih g rest (c :: cur) h1 h2

theorem pySplitGoNotInfix {pat : Str} :
    ∀ f s cur, s.length ≤ f → ¬ pat <:+: s →
      pySplitGo f pat s cur = [cur.reverse ++ s] := by
  intro f
  induction f with
  | zero =>
    intro s cur hf _
    have : s = [] := List.length_eq_zero.mp (by omega)
    subst this
    simp [pySplitGo]
  | succ f ih =>
    intro s cur hf hinf
    cases s with
    | nil => simp [pySplitGo]
    | cons c rest =>
      simp only [pySplitGo]
      have hnp : ¬ pat <+: (c :: rest) := fun h => hinf (infixOfPref h)
      rw [if_neg (by
        intro h
        exact hnp (by simpa using h.2))]
      have hrest : ¬ pat <:+: rest := fun h => hinf (List.infix_cons h)
      rw [ih rest (c :: cur) (by simp at hf; omega) hrest]
      simp

theorem pySplitGoScan {p : Char} {pt : Str} :
    ∀ pre f s cur, p ∉ pre → pre.length + s.length ≤ f →
      pySplitGo f (p :: pt) (pre ++ s) cur
        = pySplitGo (f - pre.length) (p :: pt) s (pre.reverse ++ cur) := by
  intro pre
  induction pre with
  | nil => intro f s cur _ _; simp
  | cons c pre ih =>
    intro f s cur hmem hf
    cases f with
    | zero => simp at hf
    | succ f =>
      simp only [List.cons_append, pySplitGo]
      have hcp : p ≠ c := by
        intro h
        exact hmem (by simp [h])
      rw [if_neg (by
        intro h
        have h2 := h.2
        simp only [List.isPrefixOf, Bool.and_eq_true, beq_iff_eq] at h2
        exact hcp h2.1)]
      simp only [List.append_eq]
      rw [ih f s (c :: cur) (fun h => hmem (by simp [h])) (by simp at hf; omega)]
      have hfu : f + 1 - (c :: pre).length = f - pre.length := by
        simp only [List.length_cons]
        omega
      rw [hfu]
      have hcur : (c :: pre).reverse ++ cur = pre.reverse ++ (c :: cur) := by
        simp
      rw [hcur]

theorem pySplitGoBoundary {p : Char} {pt : Str} (f : Nat) (rest cur : Str) :
    pySplitGo (f + 1) (p :: pt) ((p :: pt) ++ rest) cur
      = cur.reverse :: pySplitGo f (p :: pt) rest [] := by
  simp only [List.cons_append, pySplitGo]
  rw [if_pos]
  · simp only [List.length_cons, Nat.add_sub_cancel, List.append_eq]
    rw [List.drop_left]
  · constructor
    · simp
    · have h1 : (p :: pt) <+: (p :: (pt ++ rest)) := by
        simpa using List.prefix_append (p :: pt) rest
      simpa using h1

/-- `s.split(pat)` is `[s]` when `pat` does not occur in `s`. -/
theorem pySplitNotInfix {pat s : Str} (h : ¬ pat <:+: s) :
    pySplit pat s = [s] := by
  unfold pySplit
  rw [pySplitGoNotInfix s.length s [] (Nat.le_refl _) h]
  simp

/-- `s.split(pat)` for a string with exactly one occurrence of `pat`,
flanked by a piece not containing the first character of `pat` and a
piece not containing `pat`. -/
theorem pySplitSingleOcc {p : Char} {pt pre rest : Str}
    (hpre : p ∉ pre) (hrest : ¬ (p :: pt) <:+: rest) :
    pySplit (p :: pt) (pre ++ (p :: pt) ++ rest) = [pre, rest] := by
  unfold pySplit
  rw [List.append_assoc]
  rw [pySplitGoScan pre _ _ [] hpre (by simp)]
  have hlen : ∃ f, (pre ++ ((p :: pt) ++ rest)).length - pre.length = f + 1 := by
    refine ⟨pt.length + rest.length, ?_⟩
    simp [List.length_append]
  obtain ⟨f, hf⟩ := hlen
  rw [hf, pySplitGoBoundary]
  rw [pySplitGoNotInfix f rest [] (by
    simp [List.length_append] at hf
    omega) hrest]
  simp

theorem pyReplaceGoFuelIrrel (pat rep : Str) :
    ∀ f g s, s.length ≤ f → s.length ≤ g →
      pyReplaceGo f pat rep s = pyReplaceGo g pat rep s := by
  intro f
  induction f with
  | zero =>
    intro g s hf _
    have : s = [] := List.length_eq_zero.mp (by omega)
    subst this
    cases g <;> rfl
  | succ f ih =>
    intro g s hf hg
    cases s with
    | nil => cases g <;> rfl
    | cons c rest =>
      cases g with
      | zero => simp at hg
      | succ g =>
        simp only [pyReplaceGo]
        split
        · next h =>
          have := List.length_drop (pat.length - 1) rest
          rw [ih g _ (by simp at hf; omega) (by simp at hg; omega)]
        · next h =>
          rw [ih g rest (by simp at hf; omega) (by simp at hg; omega)]

theorem pyReplaceGoScan {pat rep : Str} :
    ∀ pre f s, (∀ i, i < pre.length → pat.isPrefixOf (pre.drop i ++ s) = false) →
      pre.length + s.length ≤ f →
      pyReplaceGo f pat rep (pre ++ s) = pre ++ pyReplaceGo (f - pre.length) pat rep s := by
  intro pre
  induction pre with
  | nil => intro f s _ _; simp
  | cons c pre ih =>
    intro f s hocc hf
    cases f with
    | zero => simp at hf
    | succ f =>
      simp only [List.cons_append, pyReplaceGo]
      rw [if_neg (by
        intro h
        have h0 := hocc 0 (by simp)
        have h2 := h.2
        simp only [List.drop_zero, List.cons_append, List.append_eq] at h0 h2
        rw [h2] at h0
        exact Bool.true_eq_false.mp h0)]
      simp only [List.append_eq]
      rw [ih f s (fun i hi => by
        have h3 := hocc (i + 1) (by simp; omega)
        simpa using h3) (by simp at hf; omega)]
      have hfu : f + 1 - (c :: pre).length = f - pre.length := by
        simp only [List.length_cons]
        omega
      rw [hfu]

theorem pyReplaceGoBoundary {p : Char} {pt rep : Str} (f : Nat) (rest : Str) :
    pyReplaceGo (f + 1) (p :: pt) rep ((p :: pt) ++ rest)
      = rep ++ pyReplaceGo f (p :: pt) rep rest := by
  simp only [List.cons_append, pyReplaceGo]
  rw [if_pos]
  · simp only [List.length_cons, Nat.add_sub_cancel, List.append_eq]
    rw [List.drop_left]
  · constructor
    · simp
    · have h1 : (p :: pt) <+: (p :: (pt ++ rest)) := by
        simpa using List.prefix_append (p :: pt) rest
      simpa using h1

/-! ## C4 — `normalize_telegram_username` -/

/-- C4 (counterexample).  The claim says a SINGLE leading `@` is
stripped, under which `"@@user"` still contains an `@` after stripping
and must yield none; the code calls `lstrip("@")`, which strips every
leading `@`, and returns `"user"`. -/
theorem C4_counterexample :
    normalize_telegram_username (chars "@@user") = some (chars "user")
    ∧ telegramClaimNormalize (chars "@@user") = none := by
  constructor <;> decide

/-- C4 (amended).  For every raw string, `normalize_telegram_username`
trims surrounding whitespace, strips ALL leading `@` characters,
lower-cases the remainder, and returns it exactly when it is non-empty
and matches `^[a-zA-Z0-9_]+$`; otherwise it returns none (it never
raises, being a total function). -/
theorem C4_theorem (u : Str) :
    normalize_telegram_username u = telegramSpecAmended u := by
  unfold normalize_telegram_username telegramSpecAmended
  by_cases hu : u = []
  · subst hu
    simp [pyStrip, pyLStrip, pyRStrip, pyLStripChars, pyLower]
  · rw [if_neg hu]
    have hcond : (reMatchHandle (pyLower (pyLStripChars (chars "@") (pyStrip u))) = true)
        ↔ (0 < (pyLower (pyLStripChars (chars "@") (pyStrip u))).length
            ∧ ∀ c ∈ pyLower (pyLStripChars (chars "@") (pyStrip u)), isHandleChar c) := by
      unfold reMatchHandle
      simp [List.length_pos, List.all_eq_true]
    by_cases h : reMatchHandle (pyLower (pyLStripChars (chars "@") (pyStrip u))) = true
    · rw [if_pos h, if_pos (hcond.mp h)]
    · rw [if_neg h, if_neg (fun hp => h (hcond.mpr hp))]

/-! ## C8 — sponsored-review currency is always `"USD"` -/

set_option maxHeartbeats 1000000 in
/-- Any record produced by one loop iteration carries currency `"USD"`. -/
theorem sponsoredRecordCurrency {row : List Str} {r : SponsoredRec}
    (h : sponsoredRowOutcome row = .record r) : r.currency = chars "USD" := by
  unfold sponsoredRowOutcome at h
  repeat' split at h
  all_goals cases h
  all_goals rfl

/-- C8.  Every record retained by `_process_sponsored_reviews` has its
currency field equal to `"USD"`, whatever currency symbol appeared in
the cost cell. -/
theorem C8_theorem (rows : List (List Str)) (r : SponsoredRec)
    (hr : r ∈ (processSponsoredReviews rows).1) : r.currency = chars "USD" := by
  induction rows with
  | nil => simp [processSponsoredReviews] at hr
  | cons row rest ih =>
    unfold processSponsoredReviews at hr
    cases hout : sponsoredRowOutcome row <;> rw [hout] at hr
    · exact ih hr
    · exact ih hr
    · next rec =>
      simp only [List.mem_cons] at hr
      cases hr with
      | inl h => subst h; exact sponsoredRecordCurrency hout
      | inr h => exact ih h

/-- C8 (witness): the theorem applied to a concrete euro-priced row. -/
theorem C8_witness :
    ({ period := some (chars "x"), mentor_identifier := chars "@bob",
       project_github_url := chars "https://github.com/o/r",
       project_name := chars "r", telegram_message_url := some (chars "u"),
       cost := 5, currency := chars "USD",
       payment_status := chars "pending" } : SponsoredRec).currency = chars "USD" := by
  refine C8_theorem [[chars "x", chars "https://github.com/o/r", chars "u",
    chars "@bob", chars "€5"]] _ ?_
  simp +decide [processSponsoredReviews, sponsoredRowOutcome, sponsoredSkip,
    sponsoredCost, headerKeywords, pyLower, pyLowerChar, pyStrip, pyLStrip,
    pyRStrip, pyIsSpace, truthyOpt, pyFloat, pyReplace, pyReplaceGo, pySplit,
    pySplitGo, digitsToNat, chars]

/-! ## C6 — sponsored-review row validation -/

theorem pyStripNil : pyStrip [] = [] := rfl

/-- A cleaned sponsored-review cell is truthy exactly when the trimmed
cell text is non-empty. -/
theorem truthySpCell (row : List Str) (i : Nat) :
    truthyOpt (spCell row i) = true ↔ pyStrip (cellD row i) ≠ [] := by
  unfold spCell truthyOpt
  by_cases h : cellD row i = []
  · rw [if_neg (by simp [h])]
    rw [h, pyStripNil]
    simp
  · rw [if_pos h]
    simp [List.isEmpty_iff]

theorem costOkSpecNone {s : Str} (hc : sponsoredCost s = none) : ¬ costOkSpec s := by
  rintro ⟨q, hq, _⟩
  rw [hc] at hq
  cases hq

theorem costOkSpecSome {s : Str} {q : ℚ} (hc : sponsoredCost s = some q) :
    costOkSpec s ↔ 0 ≤ q := by
  constructor
  · rintro ⟨q2, hq2, h0⟩
    rw [hc] at hq2
    cases hq2
    exact h0
  · intro h
    exact ⟨q, hc, h⟩

/-- With fewer than five cells, the cost cell is empty and the claimed
retention conditions fail. -/
theorem shortRowNotOk {row : List Str} (h : row.length < 5) :
    ¬ claimSponsoredRowOk row := by
  intro hok
  have h4 : cellD row 4 = [] := by
    unfold cellD
    rw [List.get?_eq_none.mpr (by omega)]
    rfl
  exact hok.2.2.1 (by rw [h4]; rfl)

/-- Row-level behaviour of the sponsored-review loop: a row is skipped
without counting exactly when a skip heuristic fires; a surviving row
yields a record exactly when the claimed retention conditions hold, and
a validation error exactly when they fail. -/
theorem sponsoredOutcomeCases (row : List Str) :
    (sponsoredRowOutcome row = .skipped ↔ sponsoredSkip row = true)
    ∧ ((∃ r, sponsoredRowOutcome row = .record r)
        ↔ (sponsoredSkip row = false ∧ claimSponsoredRowOk row))
    ∧ (sponsoredRowOutcome row = .invalid
        ↔ (sponsoredSkip row = false ∧ ¬ claimSponsoredRowOk row)) := by
  by_cases hskip : sponsoredSkip row = true
  · have hout : sponsoredRowOutcome row = .skipped := by
      unfold sponsoredRowOutcome
      rw [if_pos hskip]
    rw [hout]
    refine ⟨by simp [hskip], ?_, ?_⟩
    · constructor
      · rintro ⟨r, hr⟩
        exact nomatch hr
      · rintro ⟨hs, _⟩
        exact nomatch hs.symm.trans hskip
    · constructor
      · intro h
        exact nomatch h
      · rintro ⟨hs, _⟩
        exact nomatch hs.symm.trans hskip
  · have hskipf : sponsoredSkip row = false := by simpa using hskip
    have finishInvalid : sponsoredRowOutcome row = .invalid →
        ¬ claimSponsoredRowOk row →
        (sponsoredRowOutcome row = .skipped ↔ sponsoredSkip row = true)
        ∧ ((∃ r, sponsoredRowOutcome row = .record r)
            ↔ (sponsoredSkip row = false ∧ claimSponsoredRowOk row))
        ∧ (sponsoredRowOutcome row = .invalid
            ↔ (sponsoredSkip row = false ∧ ¬ claimSponsoredRowOk row)) := by
      intro hout hnotok
      rw [hout]
      refine ⟨?_, ?_, ?_⟩
      · constructor
        · intro h
          exact nomatch h
        · intro h
          exact nomatch hskipf.symm.trans h
      · constructor
        · rintro ⟨r, hr⟩
          exact nomatch hr
        · rintro ⟨_, hok⟩
          exact absurd hok hnotok
      · exact ⟨fun _ => ⟨hskipf, hnotok⟩, fun _ => rfl⟩
    have finishRecord : ∀ r0, sponsoredRowOutcome row = .record r0 →
        claimSponsoredRowOk row →
        (sponsoredRowOutcome row = .skipped ↔ sponsoredSkip row = true)
        ∧ ((∃ r, sponsoredRowOutcome row = .record r)
            ↔ (sponsoredSkip row = false ∧ claimSponsoredRowOk row))
        ∧ (sponsoredRowOutcome row = .invalid
            ↔ (sponsoredSkip row = false ∧ ¬ claimSponsoredRowOk row)) := by
      intro r0 hout hok
      rw [hout]
      refine ⟨?_, ?_, ?_⟩
      · constructor
        · intro h
          exact nomatch h
        · intro h
          exact nomatch hskipf.symm.trans h
      · exact ⟨fun _ => ⟨hskipf, hok⟩, fun _ => ⟨r0, rfl⟩⟩
      · constructor
        · intro h
          exact nomatch h
        · rintro ⟨_, hnot⟩
          exact absurd hok hnot
    by_cases hlen : row.length < 5
    · refine finishInvalid ?_ (shortRowNotOk hlen)
      unfold sponsoredRowOutcome
      rw [if_neg hskip, if_pos hlen]
    · by_cases hreq : (truthyOpt (spCell row 3) && truthyOpt (spCell row 1)
          && truthyOpt (spCell row 4)) = true
      · have h3 := (truthySpCell row 3).mp (by simp_all)
        have h1 := (truthySpCell row 1).mp (by simp_all)
        have h4 := (truthySpCell row 4).mp (by simp_all)
        have hc1 : cellD row 1 ≠ [] := fun hnil => h1 (by rw [hnil]; rfl)
        have hc4 : cellD row 4 ≠ [] := fun hnil => h4 (by rw [hnil]; rfl)
        have hcell1 : (spCell row 1).getD [] = pyStrip (cellD row 1) := by
          unfold spCell
          rw [if_pos hc1]
          rfl
        have hcell4 : (spCell row 4).getD [] = pyStrip (cellD row 4) := by
          unfold spCell
          rw [if_pos hc4]
          rfl
        by_cases hpre : (chars "https://github.com/").isPrefixOf (pyStrip (cellD row 1))
            = true
        · have hpre2 : (chars "https://github.com/") <+: pyStrip (cellD row 1) := by
            simpa using hpre
          have houtBase : sponsoredRowOutcome row =
              (match sponsoredCost (pyStrip (cellD row 4)) with
                | none => SpRowOutcome.invalid
                | some c =>
                  if c < 0 then SpRowOutcome.invalid
                  else
                    .record { period := spCell row 0,
                              mentor_identifier := (spCell row 3).getD [],
                              project_github_url := (spCell row 1).getD [],
                              project_name := pyReplace (chars ".git") []
                                ((pySplit (chars "/") ((spCell row 1).getD [])).getLastD []),
                              telegram_message_url := spCell row 2,
                              cost := c,
                              currency := chars "USD",
                              payment_status := chars "pending" }) := by
            unfold sponsoredRowOutcome
            rw [if_neg hskip, if_neg hlen, if_neg (by simp [hreq]),
              if_neg (by rw [hcell1]; simp [hpre]), hcell4]
          cases hc : sponsoredCost (pyStrip (cellD row 4)) with
          | none =>
            refine finishInvalid ?_ (fun hok => costOkSpecNone hc hok.2.2.2.2)
            rw [houtBase, hc]
          | some c =>
            have hiff := costOkSpecSome hc
            by_cases hneg : c < 0
            · refine finishInvalid ?_ (fun hok => absurd (hiff.mp hok.2.2.2.2)
                (by linarith))
              rw [houtBase, hc]
              exact if_pos hneg
            · exact finishRecord _
                (by rw [houtBase, hc]; exact if_neg hneg)
                ⟨h3, h1, h4, hpre2, hiff.mpr (by linarith)⟩
        · have hpre2 : ¬ (chars "https://github.com/") <+: pyStrip (cellD row 1) := by
            simpa using hpre
          refine finishInvalid ?_ (fun hok => absurd hok.2.2.2.1 hpre2)
          unfold sponsoredRowOutcome
          rw [if_neg hskip, if_neg hlen, if_neg (by simp [hreq]),
            if_pos (by rw [hcell1]; simpa using hpre)]
      · have hno : ¬ (pyStrip (cellD row 3) ≠ [] ∧ pyStrip (cellD row 1) ≠ []
            ∧ pyStrip (cellD row 4) ≠ []) := by
          intro hand
          exact hreq (by
            simp [(truthySpCell row 3).mpr hand.1, (truthySpCell row 1).mpr hand.2.1,
              (truthySpCell row 4).mpr hand.2.2])
        refine finishInvalid ?_ (fun hok => hno ⟨hok.1, hok.2.1, hok.2.2.1⟩)
        unfold sponsoredRowOutcome
        rw [if_neg hskip, if_neg hlen, if_pos (by simpa using hreq)]

/-- C6 (counterexample).  The row `["foo", "", "", "", ""]` has empty
mentor, URL and cost cells, so it violates the claimed retention
conditions; the claim says every such row increments the
validation-error counter, but the period-only skip heuristic drops it
with the counter untouched. -/
theorem C6_counterexample :
    ¬ claimSponsoredRowOk [chars "foo", [], [], [], []]
    ∧ processSponsoredReviews [[chars "foo", [], [], [], []]] = ([], 0, 0) := by
  constructor
  · intro h
    exact absurd h.1 (by decide)
  · decide

/-- C6 (amended).  A raw sponsored-review row yields a record exactly
when it survives the skip heuristics (blank row, header-keyword row,
period-only row) AND its mentor, project-URL and cost cells are
non-empty, the URL starts with `https://github.com/`, and the cost
parses to a non-negative value after currency-symbol stripping and
comma-to-dot normalization; among rows that survive the skip
heuristics, exactly those violating the conditions increment the
validation-error counter (and are dropped without raising — the loop
body is total here); skipped rows are dropped without counting.  In
particular `"$20,00"` parses to 20.0, `"₽1500"` to 1500.0, and
`"abc"` fails to parse. -/
theorem C6_theorem :
    (∀ row, (∃ r, sponsoredRowOutcome row = .record r)
        ↔ (sponsoredSkip row = false ∧ claimSponsoredRowOk row))
    ∧ (∀ rows, (processSponsoredReviews rows).2.1
        = (rows.filter (fun row => !sponsoredSkip row
            && !(decide (claimSponsoredRowOk row)))).length)
    ∧ sponsoredCost (chars "$20,00") = some 20
    ∧ sponsoredCost (chars "₽1500") = some 1500
    ∧ sponsoredCost (chars "abc") = none := by
  refine ⟨fun row => (sponsoredOutcomeCases row).2.1, ?_, ?_, ?_, ?_⟩
  · intro rows
    induction rows with
    | nil => rfl
    | cons row rest ih =>
      unfold processSponsoredReviews
      rw [List.filter_cons]
      cases hout : sponsoredRowOutcome row with
      | skipped =>
        have hskip : sponsoredSkip row = true :=
          (sponsoredOutcomeCases row).1.mp hout
        simp [hskip, ih]
      | invalid =>
        have h := (sponsoredOutcomeCases row).2.2.mp hout
        simp [h.1, h.2, ih]
      | record r =>
        have h := (sponsoredOutcomeCases row).2.1.mp ⟨r, hout⟩
        simp [h.1, h.2, ih]
  · simp +decide [sponsoredCost, pyFloat, pyReplace, pyReplaceGo, pyStrip,
      pyLStrip, pyRStrip, pyIsSpace, digitsToNat, chars]
  · simp +decide [sponsoredCost, pyFloat, pyReplace, pyReplaceGo, pyStrip,
      pyLStrip, pyRStrip, pyIsSpace, digitsToNat, chars]
  · simp +decide [sponsoredCost, pyFloat, pyReplace, pyReplaceGo, pyStrip,
      pyLStrip, pyRStrip, pyIsSpace, digitsToNat, chars]

/-- C6 (witness): the amended equivalence applied to a concrete
retained row. -/
theorem C6_witness :
    ∃ r, sponsoredRowOutcome [chars "x", chars "https://github.com/o/r",
      chars "u", chars "@bob", chars "$20,00"] = .record r := by
  refine (C6_theorem.1 _).mpr ⟨by decide, by decide, by decide, by decide,
    by decide, ?_⟩
  refine ⟨20, ?_, by norm_num⟩
  have h : pyStrip (cellD [chars "x", chars "https://github.com/o/r",
      chars "u", chars "@bob", chars "$20,00"] 4) = chars "$20,00" := by decide
  rw [h]
  exact C6_theorem.2.2.1

/-! ## C7 — project period markers -/

/-- The cons-step equation of the `_process_projects` loop. -/
theorem processProjectsGoCons (cur : Option PyDate) (row : List Str)
    (rest : List (List Str)) :
    processProjectsGo cur (row :: rest)
      = (if projectRowIsMarker row then processProjectsGo (markerPeriod row) rest
         else if row.length < 8 then processProjectsGo cur rest
         else
           let name := stripOrNone (cleanCell row 1)
           let language := stripOrEmpty (cleanCell row 2)
           let repository_url := stripOrEmpty (cleanCell row 4)
           let author := normalizeUrlCell (cleanCell row 6)
           if truthyOpt name && truthyOpt author then
             { name := name.getD [], language := language,
               repository_url := repository_url,
               author_github_url := author.getD [],
               submission_date := cur } :: processProjectsGo cur rest
           else processProjectsGo cur rest) := rfl

/-- A non-marker row contributes `projDataRecord` of the current period. -/
theorem processProjectsGoConsData {row : List Str} {rest : List (List Str)}
    {cur : Option PyDate} (hm : projectRowIsMarker row = false) :
    processProjectsGo cur (row :: rest)
      = (match projDataRecord cur row with
        | some rec => rec :: processProjectsGo cur rest
        | none => processProjectsGo cur rest) := by
  rw [processProjectsGoCons]
  rw [if_neg (by simp [hm])]
  unfold projDataRecord
  by_cases hlen : row.length < 8
  · rw [if_pos hlen, if_pos hlen]
  · rw [if_neg hlen, if_neg hlen]
    by_cases hf : (truthyOpt (stripOrNone (cleanCell row 1))
        && truthyOpt (normalizeUrlCell (cleanCell row 6))) = true
    · rw [if_pos hf, if_pos hf]
    · rw [if_neg hf, if_neg hf]

/-- A marker row only updates the carried period. -/
theorem processProjectsGoConsMarker {row : List Str} {rest : List (List Str)}
    {cur : Option PyDate} (hm : projectRowIsMarker row = true) :
    processProjectsGo cur (row :: rest)
      = processProjectsGo (markerPeriod row) rest := by
  rw [processProjectsGoCons]
  rw [if_pos hm]

/-- The loop of `_process_projects` equals its declarative reading: row
`i` is extracted under the fold of `periodStep` over the rows before
it. -/
theorem processProjectsGoSpecAux (rows : List (List Str)) :
    ∀ cur, processProjectsGo cur rows
      = (List.range rows.length).filterMap (fun i =>
          if projectRowIsMarker (rowD rows i) then none
          else projDataRecord ((rows.take i).foldl periodStep cur) (rowD rows i)) := by
  induction rows with
  | nil => intro cur; rfl
  | cons row rest ih =>
    intro cur
    have hmap : ∀ g : Nat → Option ProjRec,
        List.filterMap g (List.map Nat.succ (List.range rest.length))
          = List.filterMap (fun i => g (i + 1)) (List.range rest.length) := by
      intro g
      rw [List.filterMap_map]
      rfl
    have hshift : (fun i => if projectRowIsMarker (rowD (row :: rest) (i + 1)) then none
          else projDataRecord (((row :: rest).take (i + 1)).foldl periodStep cur)
            (rowD (row :: rest) (i + 1)))
        = (fun i => if projectRowIsMarker (rowD rest i) then none
            else projDataRecord ((rest.take i).foldl periodStep (periodStep cur row))
              (rowD rest i)) := by
      funext i
      have h1 : rowD (row :: rest) (i + 1) = rowD rest i := rfl
      have h2 : ((row :: rest).take (i + 1)).foldl periodStep cur
          = (rest.take i).foldl periodStep (periodStep cur row) := by
        rw [List.take_succ_cons, List.foldl_cons]
      rw [h1, h2]
    by_cases hm : projectRowIsMarker row = true
    · rw [processProjectsGoConsMarker hm, ih (markerPeriod row),
        List.length_cons, List.range_succ_eq_map, List.filterMap_cons]
      have h0 : (if projectRowIsMarker (rowD (row :: rest) 0) then none
          else projDataRecord (((row :: rest).take 0).foldl periodStep cur)
            (rowD (row :: rest) 0)) = none := by
        have : rowD (row :: rest) 0 = row := rfl
        rw [this, if_pos hm]
      rw [h0, hmap, hshift]
      have hstep : periodStep cur row = markerPeriod row := by
        unfold periodStep
        rw [if_pos hm]
      rw [hstep]
    · have hmf : projectRowIsMarker row = false := by simpa using hm
      rw [processProjectsGoConsData hmf, ih cur,
        List.length_cons, List.range_succ_eq_map, List.filterMap_cons]
      have h0 : (if projectRowIsMarker (rowD (row :: rest) 0) then none
          else projDataRecord (((row :: rest).take 0).foldl periodStep cur)
            (rowD (row :: rest) 0)) = projDataRecord cur row := by
        have : rowD (row :: rest) 0 = row := rfl
        rw [this, if_neg (by simp [hmf])]
        rfl
      rw [h0, hmap, hshift]
      have hstep : periodStep cur row = cur := by
        unfold periodStep
        rw [if_neg (by simp [hmf])]
      rw [hstep]
      cases projDataRecord cur row <;> rfl

/-- C7.  `_process_projects` equals its claim-side reading: every row
with at most two cells or a blank second cell is a period marker — it
is never emitted as a record, and every subsequent data row (until the
next marker) is emitted with the last marker's parsed period (`none`
when the first cell is absent, blank or unparseable) as its submission
date. -/
theorem C7_theorem (rows : List (List Str)) :
    processProjects rows = processProjectsSpec rows := by
  unfold processProjects processProjectsSpec lastMarkerPeriod
  exact processProjectsGoSpecAux rows none

/-! ## C1 — fuzzy name matching (strategy 4) -/

/-- The code's similarity score equals the amended specification's
score: only the substring direction contributes. -/
theorem strategy4ScoreSpec (searchName repoName cand : Str) :
    strategy4Score searchName repoName cand
      = specFuzzyScore searchName repoName cand := by
  unfold strategy4Score specFuzzyScore
  by_cases h1 : searchName <:+: cand <;> by_cases h2 : repoName <:+: cand <;>
    simp [h1, h2]

/-- The code's eligibility gate equals the amended specification's. -/
theorem strategy4GateSpec (searchName repoName cand : Str) :
    strategy4Gate searchName repoName cand
      ↔ specFuzzyEligible searchName repoName cand := by
  unfold strategy4Gate specFuzzyEligible
  tauto

/-- C1 (counterexample).  Search name `"abcdef"` against stored name
`"abc"` (repo name `"bbb"`, stored URL `"x"`): under the claim the
superset containment contributes `len("abc")/len("abc") = 1 > 0.3`,
so the candidate is accepted; the code's score only counts the
substring direction, stays at 0, and resolution returns no project. -/
theorem C1_counterexample :
    findProjectByGithubUrl [⟨1, chars "abc", [], some (chars "x"), none, 1⟩]
      (chars "https://github.com/aaa/bbb") (some (chars "abcdef")) = .ok none
    ∧ claimStrategy4Accept (chars "abcdef") (chars "bbb") (chars "abc") := by
  constructor
  · decide
  · decide

/-- C1 (amended).  In strategy 4, a candidate is eligible when either
search string (supplied name, or repo name from the canonical URL) is
contained in the stored name or contains it; but the similarity score
accumulates `len(search)/len(candidate)` only for search strings that
are substrings of the candidate name (the superset direction gates but
does not score), and the candidate is accepted only if that score
exceeds 0.3.  The spec's example pair still matches, and a stored name
with no containment relation to either search string never matches. -/
theorem C1_theorem :
    (∀ searchName repoName cand, cand ≠ [] →
      (strategy4Step searchName repoName cand = .ok true
        ↔ specFuzzyAccept searchName repoName cand))
    ∧ strategy4Step (chars "my-proj") (chars "my-proj-2") (chars "my-proj")
        = .ok true
    ∧ (∀ searchName repoName cand,
        ¬ specFuzzyEligible searchName repoName cand →
        strategy4Step searchName repoName cand = .ok false) := by
  refine ⟨?_, by decide, ?_⟩
  · intro searchName repoName cand hne
    unfold strategy4Step
    by_cases hg : strategy4Gate searchName repoName cand
    · rw [if_pos hg, if_neg (by
        rintro ⟨-, hnil⟩
        exact hne hnil)]
      unfold specFuzzyAccept
      rw [strategy4ScoreSpec] at *
      constructor
      · intro h
        have hb := Except.ok.inj h
        exact ⟨(strategy4GateSpec _ _ _).mp hg, of_decide_eq_true hb⟩
      · rintro ⟨-, hsc⟩
        rw [decide_eq_true hsc]
    · rw [if_neg hg]
      constructor
      · intro h
        exact absurd (Except.ok.inj h) (by simp)
      · rintro ⟨he, -⟩
        exact absurd ((strategy4GateSpec _ _ _).mpr he) hg
  · intro searchName repoName cand he
    unfold strategy4Step
    rw [if_neg (fun hg => he ((strategy4GateSpec _ _ _).mp hg))]

/-- C1 (witness): the amended equivalence and the no-overlap clause at
concrete inputs. -/
theorem C1_witness :
    strategy4Step (chars "ab") (chars "zz") (chars "abc") = .ok true
    ∧ strategy4Step (chars "qq") (chars "zz") (chars "ab") = .ok false := by
  constructor
  · refine (C1_theorem.1 (chars "ab") (chars "zz") (chars "abc")
      (by decide)).mpr ⟨by decide, ?_⟩
    show specFuzzyScore (chars "ab") (chars "zz") (chars "abc") > 3 / 10
    decide
  · exact C1_theorem.2.2 (chars "qq") (chars "zz") (chars "ab") (by decide)

/-! ## C3 — sponsored-review association with a prior review -/

/-- C3.  With two reviews sharing the sponsored review's mentor and
project and no exact URL match, the fallback query's
`scalar_one_or_none` raises `MultipleResultsFound`; the per-row
`except` then drops the sponsored review entirely (tables and counters
unchanged) instead of linking it to the most recently created review
(id 2) as the spec describes — the `order_by(Review.id.desc())` in the
code shows that picking the most recent one was the intent. -/
theorem C3_theorem :
    importSponsoredReviews c3Maps c3DB zeroStats [c3Rec] = (c3DB, zeroStats)
    ∧ findProjectByGithubUrl c3DB.projects c3Rec.project_github_url
        (some c3Rec.project_name) = .ok (some 20)
    ∧ findReviewByUrl c3DB (some (chars "u3")) 10 20 = .ok none
    ∧ (orderByIdDesc (c3DB.reviews.filter
        (fun r => r.mentor_id = 10 ∧ r.project_id = 20))).map (fun r => r.id)
        = [2, 1]
    ∧ scalarOneOrNone (orderByIdDesc (c3DB.reviews.filter
        (fun r => r.mentor_id = 10 ∧ r.project_id = 20)))
        = (.error .multipleResultsFound : Except PyErr (Option ReviewRow)) := by
  refine ⟨?_, by decide, by decide, by decide, by decide⟩
  decide

/-! ## C10 — exact-URL review lookup ignores mentor and project -/

/-- C10 (counterexample).  With exactly one review whose stored URL is
the empty string and the empty string as the message URL, the claim
says the review's id is returned; the code's falsy-URL guard returns
none. -/
theorem C10_counterexample :
    findReviewByUrl ⟨[], [], [], [], [], [⟨1, 2, 3, none, [], some []⟩], []⟩
      (some []) 7 8 = .ok none
    ∧ ([⟨1, 2, 3, none, [], some []⟩] : List ReviewRow).filter
        (fun rv => rv.review_url = some []) = [⟨1, 2, 3, none, [], some []⟩] := by
  constructor <;> decide

/-- C10 (amended).  For every database state containing exactly one
review whose stored review URL equals the given NON-EMPTY message URL,
`_find_review_by_url` returns that review's id irrespective of the
`mentor_id` and `project_id` arguments: the exact-URL association
checks neither that the matched review belongs to the same mentor nor
to the same project.  (For an empty message URL the falsy-URL guard
returns none instead.) -/
theorem C10_theorem (db : DB) (url : Str) (r : ReviewRow)
    (hone : db.reviews.filter (fun rv => rv.review_url = some url) = [r])
    (hne : url ≠ []) (m p m2 p2 : Nat) :
    findReviewByUrl db (some url) m p = .ok (some r.id)
    ∧ findReviewByUrl db (some url) m p = findReviewByUrl db (some url) m2 p2 := by
  have htr : truthyOpt (some url) = true := by
    simp [truthyOpt, List.isEmpty_iff, hne]
  constructor
  · unfold findReviewByUrl
    rw [if_neg (by simp [htr]), hone]
    rfl
  · rfl

/-- C10 (witness): the amended lemma at a concrete database. -/
theorem C10_witness :
    findReviewByUrl ⟨[], [], [], [], [],
        [⟨5, 2, 3, none, [], some (chars "u")⟩], []⟩
      (some (chars "u")) 1 1 = .ok (some 5) :=
  (C10_theorem ⟨[], [], [], [], [], [⟨5, 2, 3, none, [], some (chars "u")⟩], []⟩
    (chars "u") ⟨5, 2, 3, none, [], some (chars "u")⟩
    (by decide) (by decide) 1 1 9 9).1

/-! ## C9 — `normalize_github_url` yields a GitHub-prefixed URL -/

/-- Replacing `http://` at the head of `http://github.com/...` yields a
string starting with `https://github.com/`. -/
theorem pyReplaceHttpPrefix (r : Str) :
    ∃ t, pyReplace (chars "http://") (chars "https://")
        (chars "http://github.com/" ++ r)
      = chars "https://github.com/" ++ t := by
  unfold pyReplace
  have hpat : chars "http://" = 'h' :: chars "ttp://" := rfl
  have hsplit : chars "http://github.com/" ++ r
      = ('h' :: chars "ttp://") ++ (chars "github.com/" ++ r) := by
    simp [chars]
  have hfuel : (chars "http://github.com/" ++ r).length = (17 + r.length) + 1 := by
    simp [chars]
    omega
  rw [hfuel, hpat, hsplit, pyReplaceGoBoundary]
  have hscan : ∀ i, i < (chars "github.com/").length →
      ('h' :: chars "ttp://").isPrefixOf
        ((chars "github.com/").drop i ++ r) = false := by
    intro i hi
    have h11 : (chars "github.com/").length = 11 := rfl
    rw [h11] at hi
    interval_cases i <;>
      simp +decide [show chars "github.com/"
          = ['g','i','t','h','u','b','.','c','o','m','/'] from rfl,
        show chars "ttp://" = ['t','t','p',':','/','/'] from rfl,
        List.isPrefixOf]
  rw [pyReplaceGoScan (chars "github.com/") _ _ hscan (by simp [chars])]
  refine ⟨pyReplaceGo (17 + r.length - (chars "github.com/").length)
    ('h' :: chars "ttp://") (chars "https://") r, ?_⟩
  rw [← List.append_assoc]
  rfl

/-- C9.  For every input whose stripped form is non-empty and contains
neither `gist.github.com` nor the double-prefix artefact
`https://github.com/https://`, `normalize_github_url` returns some
string starting with `https://github.com/` — other hosts and
ill-formed texts included, which are prefixed verbatim rather than
rejected. -/
theorem C9_theorem (u : Str)
    (hne : pyStrip u ≠ [])
    (hgist : ¬ chars "gist.github.com" <:+: pyStrip u)
    (hdp : ¬ chars "https://github.com/https://" <:+: pyStrip u) :
    ∃ t, normalize_github_url u = some t ∧ chars "https://github.com/" <+: t := by
  have hu : u ≠ [] := by
    intro h
    exact hne (by rw [h]; rfl)
  unfold normalize_github_url normalizeGithubUrlStripped
  rw [if_neg hu]
  have hblock : githubDoublePrefixBlock (pyStrip u) = none := by
    unfold githubDoublePrefixBlock
    rw [if_neg hdp]
  rw [hblock]
  by_cases h1 : (chars "https://github.com/").isPrefixOf (pyStrip u) = true
  · rw [if_pos h1]
    exact ⟨pyStrip u, rfl, by simpa using h1⟩
  · rw [if_neg (by simp [h1])]
    by_cases h2 : (chars "http://github.com/").isPrefixOf (pyStrip u) = true
    · rw [if_pos h2]
      have hp : chars "http://github.com/" <+: pyStrip u := by simpa using h2
      obtain ⟨r, hr⟩ := hp
      rw [← hr]
      obtain ⟨t, ht⟩ := pyReplaceHttpPrefix r
      exact ⟨_, rfl, by rw [ht]; exact List.prefix_append _ _⟩
    · rw [if_neg (by simp [h2])]
      by_cases h3 : (chars "github.com/").isPrefixOf (pyStrip u) = true
      · rw [if_pos h3]
        have hp : chars "github.com/" <+: pyStrip u := by simpa using h3
        obtain ⟨r, hr⟩ := hp
        refine ⟨_, rfl, ?_⟩
        rw [← hr]
        have : chars "https://" ++ (chars "github.com/" ++ r)
            = chars "https://github.com/" ++ r := by simp [chars]
        rw [this]
        exact List.prefix_append _ _
      · rw [if_neg (by simp [h3])]
        have h4 : (chars "https://gist.github.com/").isPrefixOf (pyStrip u) = false := by
          refine isPrefixOfFalse (fun hp => hgist ?_)
          have hsub : chars "gist.github.com" <:+: chars "https://gist.github.com/" := by
            decide
          exact hsub.trans (infixOfPref hp)
        rw [if_neg (by simp [h4])]
        refine ⟨chars "https://github.com/" ++ pyStrip u, ?_,
          List.prefix_append _ _⟩
        rw [ite_self]

/-- C9 (witness): the theorem at the shorthand input `owner/repo`. -/
theorem C9_witness :
    ∃ t, normalize_github_url (chars "owner/repo") = some t
      ∧ chars "https://github.com/" <+: t :=
  C9_theorem (chars "owner/repo") (by decide) (by decide) (by decide)

/-- C5: the five URL variants of one `owner`/`repo` do NOT all produce
one identical result under `normalize_github_url_canonical`.  For
`owner = owner`, `repo = tig`, the variant with a trailing slash
canonicalizes while the other four return `None`: `rstrip(".git")`
strips the character set `{'.', 'g', 'i', 't'}` rather than the
suffix `".git"`, eating the whole repo name `tig` (the code's own
comment says `Remove .git suffix`). -/
theorem C5_theorem :
    (urlVariants (chars "owner") (chars "tig")).map normalize_github_url_canonical
      = [none, none, none,
         some (chars "https://github.com/owner/tig"), none] := by
  decide

/-! ### The atomicity of `_import_to_database` (C2) -/

theorem checkBindOk {fault : Option (Fin 8)} {k : Nat} {β : Type}
    {f : Unit → Except ImportFault β} {x : β}
    (h : importCheck fault k >>= f = .ok x) : f () = .ok x := by
  cases fault with
  | none => simpa [importCheck] using h
  | some g =>
    by_cases hg : g.val = k
    · simp [importCheck, hg, Bind.bind, Except.bind] at h
    · simpa [importCheck, hg] using h

theorem mapErrorBindOk {α β : Type} {a : Except PyErr α}
    {f : α → Except ImportFault β} {x : β}
    (h : a.mapError ImportFault.py >>= f = .ok x) :
    ∃ y, a = .ok y ∧ f y = .ok x := by
  cases a with
  | error e => simp [Except.mapError, Bind.bind, Except.bind] at h
  | ok y => exact ⟨y, rfl, by simpa [Except.mapError] using h⟩

theorem importRunOkBody {ef : Bool} {db0 : DB} {data : ProcessedData}
    {fault : Option (Fin 8)} {x : DB × ImportStats}
    (h : importRun ef db0 data fault = .ok x) :
    importBody ef (clearDatabase db0) data = .ok x := by
  unfold importRun at h
  replace h := checkBindOk h
  replace h := checkBindOk h
  obtain ⟨y1, hy1, h⟩ := mapErrorBindOk h
  obtain ⟨db2, maps1, st1⟩ := y1
  replace h := checkBindOk h
  obtain ⟨y2, hy2, h⟩ := mapErrorBindOk h
  obtain ⟨db3, maps2, st2⟩ := y2
  replace h := checkBindOk h
  replace h := checkBindOk h
  replace h := checkBindOk h
  replace h := checkBindOk h
  replace h := checkBindOk h
  unfold importBody
  rw [hy1]
  simp only [Bind.bind, Except.bind]
  rw [hy2]
  simp only [Bind.bind, Except.bind]
  exact congrArg Except.ok (Except.ok.inj h)

/-- C2: the import is atomic.  (1) If any uncaught fault is raised
anywhere inside the transaction — modelled both as a storage-layer
fault surfacing through a step and as a fault injected at any of the
eight points between the clear, the five import steps and the commit —
the stored state readers observe is exactly the prior state `db0`.
(2) If the run succeeds, the committed state is exactly the full
replacement `fullReplaceRun`: the owned tables cleared and then
repopulated from the processed data in one step, so readers never
observe partial progress. -/
theorem C2_theorem (ef : Bool) (db0 : DB) (data : ProcessedData)
    (fault : Option (Fin 8)) :
    (∀ e, (importToDatabase ef db0 data fault).1 = .error e →
      (importToDatabase ef db0 data fault).2 = db0) ∧
    (∀ st, (importToDatabase ef db0 data fault).1 = .ok st →
      fullReplaceRun ef db0 data
        = .ok ((importToDatabase ef db0 data fault).2, st)) := by
  constructor
  · intro e he
    unfold importToDatabase at he ⊢
    cases hr : importRun ef db0 data fault with
    | ok y => obtain ⟨db', st⟩ := y; rw [hr] at he; simp at he
    | error e' => rfl
  · intro st hst
    unfold importToDatabase at hst ⊢
    cases hr : importRun ef db0 data fault with
    | error e' => rw [hr] at hst; simp at hst
    | ok y =>
      obtain ⟨db', st'⟩ := y
      rw [hr] at hst
      simp at hst
      subst hst
      have hb := importRunOkBody hr
      unfold fullReplaceRun
      rw [hb]

/-- C2 (witness): on an empty database and empty processed data, a
faultless run commits exactly the full-replacement snapshot, and a run
with a fault injected at the first step leaves the prior state
untouched. -/
theorem C2_witness :
    (fullReplaceRun true ⟨[], [], [], [], [], [], []⟩ ⟨[], [], [], [], none⟩
        = .ok ((importToDatabase true ⟨[], [], [], [], [], [], []⟩
            ⟨[], [], [], [], none⟩ none).2, zeroStats)) ∧
    (importToDatabase true ⟨[], [], [], [], [], [], []⟩
        ⟨[], [], [], [], none⟩ (some 0)).2 = ⟨[], [], [], [], [], [], []⟩ :=
  ⟨(C2_theorem true ⟨[], [], [], [], [], [], []⟩ ⟨[], [], [], [], none⟩ none).2
      zeroStats (by decide),
   (C2_theorem true ⟨[], [], [], [], [], [], []⟩ ⟨[], [], [], [], none⟩
      (some 0)).1 (.injected 0) (by decide)⟩

end Meta2
